import Mathlib

/-!
Verification of the lease-review redline and annotation engine.

This file gives a shallow embedding of the engine implemented in
src/redline.py (tracked-change application, comment annotations, section
position reconstruction) and of the section order-key derivation in
src/app.py, and proves or refutes the frozen behavioural claims about it.

Modelling conventions:
  * A word-processing paragraph (w:p) is a list of children; a child is a
    plain run (w:r), a tracked deletion (w:del wrapping a run with w:delText)
    or a tracked insertion (w:ins wrapping a run).  Run and paragraph
    formatting (w:rPr / w:pPr) is engine-opaque: the engine only copies it,
    so it is modelled as an abstract optional tag string.  The constant
    author and date attributes of tracked changes are not modelled.
  * The document is the ordered list of body paragraphs plus the ordered
    list of table-cell paragraphs (in the order the engine scans them).
  * Python dictionaries are modelled as association lists that keep
    first-insertion order, matching dict iteration order.
  * The floats the engine computes are sums of exact short decimals
    (0.40, 0.15, 0.1, 0.01, ...) on which Python's float arithmetic and
    comparisons agree with exact decimal arithmetic, so confidence
    scores are computed in integer hundredths and sort keys in integer
    ten-thousandths, with rational views (value / 100, value / 10000)
    for the claims stated over real-valued scores.
-/

namespace LeaseReview

/-! ## Python-style string primitives -/

/-- Whitespace characters recognised by Python's str.strip and re \s (ASCII). -/
def isPyWs (c : Char) : Bool :=
  c = ' ' || c = '\t' || c = '\n' || c = '\r' || c = '\x0b' || c = '\x0c'

/-- Python str.lower (ASCII). -/
def pyLower (s : String) : String := String.mk (s.toList.map Char.toLower)

/-- Python str.upper (ASCII). -/
def pyUpper (s : String) : String := String.mk (s.toList.map Char.toUpper)

/-- Python str.strip(): drop leading and trailing whitespace. -/
def pyStrip (s : String) : String :=
  String.mk (((s.toList.dropWhile isPyWs).reverse.dropWhile isPyWs).reverse)

/-- Collapse helper: prevWs records whether the previous character was
part of a whitespace run already emitted as one space. -/
def collapseAux : Bool → List Char → List Char
  | _, [] => []
  | prevWs, c :: t =>
    if isPyWs c then
      if prevWs then collapseAux true t else ' ' :: collapseAux true t
    else c :: collapseAux false t

/-- Collapse every maximal whitespace run to a single space,
modelling re.sub of a whitespace-run pattern with a single space. -/
def collapseChars (l : List Char) : List Char := collapseAux false l

/-- Whitespace collapse on strings (no stripping). -/
def collapseWsStr (s : String) : String := String.mk (collapseChars s.toList)

/-- The engine's normalize helper: collapse whitespace runs, then strip. -/
def normalize (s : String) : String := pyStrip (collapseWsStr s)

/-- Index of the first occurrence of needle in hay (list form),
counting from i; none when absent.  Mirrors Python str.index / str.find. -/
def firstIdxOfSubAux (needle : List Char) : List Char → Nat → Option Nat
  | hay, i =>
    if needle.isPrefixOf hay then some i
    else match hay with
      | [] => none
      | _ :: t => firstIdxOfSubAux needle t (i + 1)

/-- Python substring containment: needle in hay. -/
def substr (needle hay : String) : Bool :=
  (firstIdxOfSubAux needle.toList hay.toList 0).isSome

/-- Index of the first occurrence of a substring, 0 when absent. -/
def firstIdxOfSub (needle hay : String) : Nat :=
  (firstIdxOfSubAux needle.toList hay.toList 0).getD 0

/-- Python slicing s[:n]. -/
def strTake (s : String) (n : Nat) : String := String.mk (s.toList.take n)

/-- Python slicing s[n:]. -/
def strDrop (s : String) (n : Nat) : String := String.mk (s.toList.drop n)

/-- Split helper: cur accumulates the current word in reverse. -/
def pySplitAux : List Char → List Char → List (List Char)
  | cur, [] => if cur = [] then [] else [cur.reverse]
  | cur, c :: t =>
    if isPyWs c then
      if cur = [] then pySplitAux [] t else cur.reverse :: pySplitAux [] t
    else pySplitAux (c :: cur) t

/-- Python str.split() with no argument: split on whitespace runs,
producing no empty pieces. -/
def pySplitChars (l : List Char) : List (List Char) := pySplitAux [] l

/-- Python str.split() on strings. -/
def pySplit (s : String) : List String := (pySplitChars s.toList).map String.mk

/-- Number of start positions at which needle occurs in hay.
Used only to state occurrence counts for concrete inputs. -/
def countOccAux (needle : List Char) : List Char → Nat
  | [] => 0
  | c :: t => (if needle.isPrefixOf (c :: t) then 1 else 0) + countOccAux needle t

/-- Occurrence count of a substring in a string. -/
def countOcc (needle hay : String) : Nat := countOccAux needle.toList hay.toList

/-! ## Python-dict association lists (insertion-ordered) -/

/-- Dictionary lookup. -/
def dictGet {α : Type} : List (String × α) → String → Option α
  | [], _ => none
  | (k, v) :: rest, key => if k = key then some v else dictGet rest key

/-- Dictionary write: update in place keeping first-insertion order,
or append a fresh key at the end, as a Python dict does. -/
def dictSet {α : Type} : List (String × α) → String → α → List (String × α)
  | [], key, val => [(key, val)]
  | (k, v) :: rest, key, val =>
    if k = key then (k, val) :: rest else (k, v) :: dictSet rest key val

/-- Lookup with the 999999 sentinel default used for section positions. -/
def posGetD (pos : List (String × Nat)) (key : String) : Nat :=
  (dictGet pos key).getD 999999

/-- The guarded position update used by the pre-scan, the comment
insertion sites and the post-save merge: store idx only when it is
strictly smaller than the value currently recorded for the key. -/
def keepEarliest (pos : List (String × Nat)) (key : String) (idx : Nat) :
    List (String × Nat) :=
  if idx < posGetD pos key then dictSet pos key idx else pos

/-! ## Document model -/

/-- A child element of a paragraph: a plain run, a tracked deletion
(w:del with its change id) or a tracked insertion (w:ins with its change
id).  Formatting is an opaque optional tag. -/
inductive PChild where
  | run (rpr : Option String) (text : String)
  | del (id : Nat) (rpr : Option String) (text : String)
  | ins (id : Nat) (rpr : Option String) (text : String)
deriving DecidableEq, Repr

/-- A paragraph: opaque paragraph formatting plus ordered children. -/
structure Para where
  pPr : Option String
  children : List PChild
deriving DecidableEq, Repr

/-- The document: body paragraphs (doc.paragraphs) in order, plus the
table-cell paragraphs in the order the engine scans them. -/
structure Doc where
  body : List Para
  tableParas : List Para
deriving DecidableEq, Repr

/-- Text of a plain-run child, none for del/ins children. -/
def runTextOf : PChild → Option String
  | .run _ t => some t
  | _ => none

/-- python-docx paragraph.text: concatenated text of the direct plain
runs only (runs inside w:del / w:ins are not direct children). -/
def paraText (p : Para) : String :=
  String.join (p.children.filterMap runTextOf)

/-- Text of any child element, as XML itertext would yield it. -/
def childItertext : PChild → String
  | .run _ t => t
  | .del _ _ t => t
  | .ins _ _ t => t

/-- lxml itertext over a paragraph: all text nodes in document order. -/
def paraItertext (p : Para) : String :=
  String.join (p.children.map childItertext)

/-- The engine's rpr helper: formatting of the first direct run that has
explicit run formatting. -/
def getRpr (p : Para) : Option String :=
  (p.children.filterMap (fun c => match c with
    | .run (some r) _ => some r
    | _ => none)).head?

/-- Texts of the tracked deletions (w:delText) inside a paragraph. -/
def delTextsOf (p : Para) : List String :=
  p.children.filterMap (fun c => match c with
    | .del _ _ t => some t
    | _ => none)

/-! ## Redline application to one paragraph (redline.py _apply_to_para) -/

/-- Rebuild a paragraph around the located match: keep paragraph
formatting, emit optional before-run, the deletion carrying changeId, the
insertion carrying changeId+1, and the optional after-run. -/
def applyToParaCore (p : Para) (actualFind actualFull replaceText : String)
    (changeId : Nat) : Para :=
  let rpr := getRpr p
  let idx := firstIdxOfSub actualFind actualFull
  let before := strTake actualFull idx
  let after := strDrop actualFull (idx + actualFind.length)
  { pPr := p.pPr,
    children :=
      (if before ≠ "" then [PChild.run rpr before] else []) ++
      [PChild.del changeId rpr actualFind,
       PChild.ins (changeId + 1) rpr replaceText] ++
      (if after ≠ "" then [PChild.run rpr after] else []) }

/-- Try an exact, then a whitespace-normalized match of findText against
the paragraph's run text; on success rewrite the paragraph and consume
two change ids.  Returns (new paragraph, new change id, found flag). -/
def applyToPara (p : Para) (findText replaceText : String) (changeId : Nat) :
    Para × Nat × Bool :=
  let fullText := paraText p
  if substr findText fullText then
    (applyToParaCore p findText fullText replaceText changeId, changeId + 2, true)
  else
    let normFull := normalize fullText
    let normFind := normalize findText
    if substr normFind normFull then
      (applyToParaCore p normFind normFull replaceText changeId, changeId + 2, true)
    else (p, changeId, false)

/-- Whether applyToPara succeeds on this paragraph (exact or normalized). -/
def paraMatches (findText : String) (p : Para) : Bool :=
  substr findText (paraText p) ||
    substr (normalize findText) (normalize (paraText p))

/-! ## Comment annotations (redline.py _comment_confidence and
_insert_comment_annotation) -/

/-- Anchor-confidence score for placing a comment about sectionName just
above a paragraph with the given text, in hundredths (0.40 is 40, and
so on).  The source adds the exact decimals 0.40/0.30/0.10/0.30/0.15
and compares against 0.80; on this value set the float arithmetic is
exact at two decimal places, so integer hundredths model it faithfully. -/
def commentConfidenceH (paraTxt sectionName : String) (keywords : List String) :
    Nat :=
  let t := pyStrip (pyLower paraTxt)
  let sn := pyLower sectionName
  let score1 : Nat := if substr sn t then 40 else 0
  let score2 : Nat :=
    if keywords ≠ [] && keywords.all (fun kw => substr kw t) then 30
    else if keywords ≠ [] && keywords.any (fun kw => substr kw t) then 10
    else 0
  let length := (pyStrip paraTxt).length
  let score3 : Nat := if length ≤ 80 then 30 else if length ≤ 160 then 15 else 0
  min (score1 + score2 + score3) 100

/-- The confidence score as the source's real number in 0.0 to 1.0. -/
def commentConfidence (paraTxt sectionName : String) (keywords : List String) :
    ℚ :=
  (commentConfidenceH paraTxt sectionName keywords : ℚ) / 100

/-- Below this confidence the annotation is appended to the document
end; in hundredths (the source's 0.80). -/
def CONFIDENCE_THRESHOLD : Nat := 80

/-- Keywords derived from a section name: lowercased whitespace-separated
words longer than 3 characters. -/
def keywordsOf (sectionName : String) : List String :=
  (pySplit (pyLower sectionName)).filter (fun w => w.length > 3)

/-- The literal marker text of a comment annotation paragraph. -/
def commentText (sectionName issueText vipStandard : String) : String :=
  "⚑ VIP LEGAL REVIEW — " ++ pyUpper sectionName ++ ": " ++ issueText ++
    (if vipStandard ≠ "" then "  |  VIP STANDARD: " ++ vipStandard else "")

/-- Abstract tag for the comment run formatting (bold, red, highlighted). -/
def commentRpr : Option String := some "b;CC0000;yellow;FFFF99"

/-- Abstract tag for the comment paragraph shading. -/
def commentPPr : Option String := some "shd:FFFF99"

/-- The yellow-highlighted VIP LEGAL REVIEW annotation paragraph. -/
def commentParaOf (sectionName issueText vipStandard : String) : Para :=
  { pPr := commentPPr,
    children := [PChild.run commentRpr (commentText sectionName issueText vipStandard)] }

/-- Scoring loop over the body paragraphs: best index, best score, and
whether any paragraph scored strictly above zero (best_para is not None).
Empty paragraphs are skipped; a strictly greater score wins. -/
def bestAnchorLoop (sectionName : String) (keywords : List String) :
    List Para → Nat → Nat → Nat → Bool → Nat × Nat × Bool
  | [], _, bIdx, bScore, bSome => (bIdx, bScore, bSome)
  | p :: rest, idx, bIdx, bScore, bSome =>
    if pyStrip (paraText p) = "" then
      bestAnchorLoop sectionName keywords rest (idx + 1) bIdx bScore bSome
    else
      let sc := commentConfidenceH (paraText p) sectionName keywords
      if sc > bScore then bestAnchorLoop sectionName keywords rest (idx + 1) idx sc true
      else bestAnchorLoop sectionName keywords rest (idx + 1) bIdx bScore bSome

/-- Insert a VIP LEGAL REVIEW annotation: above the explicitly targeted
paragraph when a valid target index is given, else above the
best-scoring anchor when its score clears the threshold, else appended
at the end of the document.  Returns the new document and the paragraph
index used (999999 when appended at the bottom). -/
def insertCommentAnnot (doc : Doc) (sectionName issueText vipStandard : String)
    (targetParaIdx : Option Nat) : Doc × Nat :=
  let scored :=
    match targetParaIdx with
    | some t =>
      if t < doc.body.length then (t, 100, true)
      else bestAnchorLoop sectionName (keywordsOf sectionName) doc.body 0 999999 0 false
    | none => bestAnchorLoop sectionName (keywordsOf sectionName) doc.body 0 999999 0 false
  let cp := commentParaOf sectionName issueText vipStandard
  if CONFIDENCE_THRESHOLD ≤ scored.2.1 ∧ scored.2.2 = true then
    ({ doc with body := doc.body.take scored.1 ++ [cp] ++ doc.body.drop scored.1 },
     scored.1)
  else
    ({ doc with body := doc.body ++ [cp] }, 999999)

/-! ## Engine inputs and state (redline.py apply_redlines) -/

/-- A redline request: topic (section), literal find/replace snippets and
a reason.  Missing dict keys are the empty string. -/
structure Redline where
  sect : String
  find : String
  replace : String
  reason : String
deriving DecidableEq, Repr

/-- A review item used for annotation fallback and standing comments. -/
structure Issue where
  sect : String
  priority : String
  status : String
  issue : String
  vip_standard : String
  lease_says : String
deriving DecidableEq, Repr

/-- A free-standing additional red-flag note, always appended. -/
structure AddIssue where
  title : String
  concern : String
  suggested_action : String
deriving DecidableEq, Repr

/-- Record an action for a section: first action sticks, a differing
later action upgrades the entry to "both". -/
def recordAction (actions : List (String × String)) (sec action : String) :
    List (String × String) :=
  match dictGet actions sec with
  | none => dictSet actions sec action
  | some existing => if existing ≠ action then dictSet actions sec "both" else actions

/-- Mutable engine state threaded through redline application and the
comment passes. -/
structure EngineSt where
  body : List Para
  tbl : List Para
  changeId : Nat
  applied : Nat
  comments : Nat
  actions : List (String × String)
  positions : List (String × Nat)
  findToSection : List (String × String)
deriving Repr

/-- Step-1 scan of the body paragraphs for one redline: apply to every
paragraph, counting each success, recording the "redline" action, and
recording the index of the first matching paragraph as the section
position (an unconditional overwrite). -/
def redlineParasLoop (sect ftext rtext : String) :
    List Para → Nat → Nat → Nat → List (String × String) → List (String × Nat) →
    Bool → List Para × Nat × Nat × List (String × String) × List (String × Nat) × Bool
  | [], _, cid, applied, acts, pos, found => ([], cid, applied, acts, pos, found)
  | p :: rest, idx, cid, applied, acts, pos, found =>
    let res := applyToPara p ftext rtext cid
    let ok := res.2.2
    let applied' := if ok then applied + 1 else applied
    let acts' := if ok then recordAction acts sect "redline" else acts
    let pos' := if ok && !found then dictSet pos sect idx else pos
    let r := redlineParasLoop sect ftext rtext rest (idx + 1) res.2.1 applied' acts' pos' (found || ok)
    (res.1 :: r.1, r.2)

/-- Step-1 scan of the table-cell paragraphs for one redline: apply to
every cell paragraph; a success pins the section position to the
999998 table sentinel when nothing earlier is recorded. -/
def redlineTableLoop (sect ftext rtext : String) :
    List Para → Nat → Nat → List (String × String) → List (String × Nat) →
    Bool → List Para × Nat × Nat × List (String × String) × List (String × Nat) × Bool
  | [], cid, applied, acts, pos, found => ([], cid, applied, acts, pos, found)
  | p :: rest, cid, applied, acts, pos, found =>
    let res := applyToPara p ftext rtext cid
    let ok := res.2.2
    let applied' := if ok then applied + 1 else applied
    let acts' := if ok then recordAction acts sect "redline" else acts
    let pos' := if ok && decide (999998 ≤ posGetD pos sect) then dictSet pos sect 999998 else pos
    let r := redlineTableLoop sect ftext rtext rest res.2.1 applied' acts' pos' (found || ok)
    (res.1 :: r.1, r.2)

/-- Process one redline request: skip degenerate requests, otherwise
remember the find-to-section key, rewrite every matching body and table
paragraph, and fall back to a comment annotation when nothing matched
and the topic has no recorded action yet. -/
def applyOneRedline (issuesBySection : List (String × Issue)) (st : EngineSt)
    (r : Redline) : EngineSt :=
  let ftext := pyStrip r.find
  let rtext := pyStrip r.replace
  if ftext = "" || rtext = "" || ftext = rtext then st
  else
    let fts := if r.sect ≠ "" then dictSet st.findToSection (strTake (pyLower ftext) 80) r.sect
               else st.findToSection
    let b := redlineParasLoop r.sect ftext rtext st.body 0 st.changeId st.applied st.actions st.positions false
    let body' := b.1
    let t := redlineTableLoop r.sect ftext rtext st.tbl b.2.1 b.2.2.1 b.2.2.2.1 b.2.2.2.2.1 b.2.2.2.2.2
    let tbl' := t.1
    let cid2 := t.2.1
    let applied2 := t.2.2.1
    let acts2 := t.2.2.2.1
    let pos2 := t.2.2.2.2.1
    let found2 := t.2.2.2.2.2
    let a := dictGet acts2 r.sect
    if !found2 && !(a = some "redline" || a = some "comment" || a = some "both") then
      let issueObj := dictGet issuesBySection r.sect
      let issueText :=
        match issueObj with
        | some io =>
          if io.issue ≠ "" then io.issue
          else if r.reason ≠ "" then r.reason
          else "Review required per VIP standards"
        | none => if r.reason ≠ "" then r.reason else "Review required per VIP standards"
      let vipStd := match issueObj with | some io => io.vip_standard | none => ""
      let insRes := insertCommentAnnot ⟨body', tbl'⟩ r.sect issueText vipStd none
      { body := insRes.1.body, tbl := insRes.1.tableParas, changeId := cid2,
        applied := applied2, comments := st.comments + 1,
        actions := recordAction acts2 r.sect "comment",
        positions := keepEarliest pos2 r.sect insRes.2,
        findToSection := fts }
    else
      { body := body', tbl := tbl', changeId := cid2, applied := applied2,
        comments := st.comments, actions := acts2, positions := pos2,
        findToSection := fts }

/-- Step 2: one standing comment for a High/Medium non-pass issue whose
section has no comment yet; anchored directly above the redlined
paragraph when the section both acted as "redline" and has a known
non-sentinel position. -/
def step2One (st : EngineSt) (iss : Issue) : EngineSt :=
  if iss.status = "pass" || (iss.priority ≠ "High" && iss.priority ≠ "Medium") then st
  else if dictGet st.actions iss.sect = some "comment" ||
          dictGet st.actions iss.sect = some "both" then st
  else
    let issueText := if iss.issue ≠ "" then iss.issue else "Review required per VIP standards"
    let targetIdx :=
      match dictGet st.positions iss.sect with
      | some p =>
        if p < 999990 && dictGet st.actions iss.sect = some "redline" then some p else none
      | none => none
    let insRes := insertCommentAnnot ⟨st.body, st.tbl⟩ iss.sect issueText iss.vip_standard targetIdx
    { st with
      body := insRes.1.body,
      tbl := insRes.1.tableParas,
      comments := st.comments + 1,
      actions := recordAction st.actions iss.sect "comment",
      positions := keepEarliest st.positions iss.sect insRes.2 }

/-- The appended paragraph for one additional red-flag item. -/
def addIssuePara (ai : AddIssue) : Para :=
  let title := pyUpper (if ai.title = "" then "Additional Issue" else ai.title)
  { pPr := some "shd:FFF3CD",
    children := [PChild.run (some "b;B45309")
      ("⚑ " ++ title ++ ": " ++ ai.concern ++
        (if ai.suggested_action ≠ "" then "  |  ACTION: " ++ ai.suggested_action else ""))] }

/-- The header plus item paragraphs appended for additional issues. -/
def addIssuesParas (ais : List AddIssue) : List Para :=
  { pPr := none,
    children := [PChild.run (some "b") "❖ ADDITIONAL VIP REVIEW ITEMS — NON-STANDARD CLAUSES"] }
    :: ais.map addIssuePara

/-! ## Position reconstruction -/

/-- Paragraph text as the position scans read it: all text nodes,
lowercased, whitespace-collapsed. -/
def paraFullLower (p : Para) : String := collapseWsStr (pyLower (paraItertext p))

/-- Pre-scan of the original document: for every redline with a section,
record the earliest paragraph whose full text contains the normalized
lowercased find text (earliest-wins update). -/
def prescanPositions (body : List Para) (redlines : List Redline) :
    List (String × Nat) :=
  redlines.foldl (fun pos r =>
    let ftext := pyLower (pyStrip r.find)
    if ftext = "" || r.sect = "" then pos
    else
      let findNorm := normalize ftext
      match body.findIdx? (fun p => substr findNorm (paraFullLower p)) with
      | some i => keepEarliest pos r.sect i
      | none => pos) []

/-- Quote characters recognised by the snippet-extraction pattern. -/
def quoteChars : List Char := ['\'', '‘', '’', '“', '”', '"']

/-- Characters allowed inside an extracted quoted snippet. -/
def notQuoteSimple (c : Char) : Bool := c ≠ '\'' && c ≠ '"'

/-- Try to capture exactly k snippet characters followed by a closing
quote; returns the capture and the remainder after the closing quote. -/
def tryCloseAt (l : List Char) (k : Nat) : Option (List Char × List Char) :=
  let cap := l.take k
  if cap.length = k && cap.all notQuoteSimple then
    match l.drop k with
    | c :: rest => if quoteChars.contains c then some (cap, rest) else none
    | [] => none
  else none

/-- Greedy capture length search, from k down to 4 (the pattern's
bounded greedy repetition with backtracking). -/
def tryGreedy (l : List Char) : Nat → Option (List Char × List Char)
  | 0 => none
  | k + 1 =>
    if k + 1 < 4 then none
    else match tryCloseAt l (k + 1) with
      | some r => some r
      | none => tryGreedy l k

/-- Left-to-right non-overlapping scan for quoted snippets of 4 to 60
characters, modelling the findall over the quote pattern. -/
def findQuotedAux : Nat → List Char → List (List Char)
  | 0, _ => []
  | _, [] => []
  | fuel + 1, c :: rest =>
    if quoteChars.contains c then
      match tryGreedy rest (min 60 rest.length) with
      | some (cap, rest') => cap :: findQuotedAux fuel rest'
      | none => findQuotedAux fuel rest
    else findQuotedAux fuel rest

/-- All quoted snippets of a string, in scan order. -/
def findQuoted (s : String) : List String :=
  (findQuotedAux s.length s.toList).map String.mk

/-- First element of maximal length (Python max with a length key). -/
def maxByLen : List String → String
  | [] => ""
  | w :: rest => rest.foldl (fun best x => if x.length > best.length then x else best) w

/-- Try ranked candidate snippets in order against the document,
returning the index of the first paragraph containing the first usable
candidate; candidates shorter than 4 characters are skipped. -/
def firstMatchCands (body : List Para) : List String → Option Nat
  | [] => none
  | c :: rest =>
    if c = "" || c.length < 4 then firstMatchCands body rest
    else
      let candNorm := normalize (pyLower c)
      match body.findIdx? (fun p => substr candNorm (paraFullLower p)) with
      | some i => some i
      | none => firstMatchCands body rest

/-- Keyword fallback: approximate positions for sections the pre-scan
left unpositioned, trying redline find texts, lease-says snippets,
all-keywords-in-one-paragraph, then the longest single keyword. -/
def fallbackPositions (body : List Para) (redlines : List Redline)
    (issues : List Issue) (pos : List (String × Nat)) : List (String × Nat) :=
  let sectionFindTexts := redlines.foldl (fun acc r =>
    let f := pyStrip r.find
    if r.sect ≠ "" && f ≠ "" then
      match dictGet acc r.sect with
      | none => dictSet acc r.sect [pyLower f]
      | some l => dictSet acc r.sect (l ++ [pyLower f])
    else acc) []
  let sectionLeaseSays := issues.foldl (fun acc it =>
    let ls := pyStrip it.lease_says
    if it.sect ≠ "" && ls ≠ "" then
      let snippets := pyLower (strTake ls 60) ::
        (((findQuoted ls).filter (fun q => q.length > 4)).map pyLower)
      dictSet acc it.sect snippets
    else acc) []
  let allNames := ((redlines.map (·.sect)) ++ (issues.map (·.sect))).eraseDups
  allNames.foldl (fun pos sec =>
    if sec = "" || (dictGet pos sec).isSome then pos
    else
      let kws := keywordsOf sec
      let pass1 := firstMatchCands body ((dictGet sectionFindTexts sec).getD [])
      let pass2 := match pass1 with
        | some i => some i
        | none => firstMatchCands body ((dictGet sectionLeaseSays sec).getD [])
      let pass3 := match pass2 with
        | some i => some i
        | none =>
          if kws ≠ [] then
            body.findIdx? (fun p => kws.all (fun kw => substr kw (pyLower (paraText p))))
          else none
      let pass4 := match pass3 with
        | some i => some i
        | none => if kws ≠ [] then firstMatchCands body [maxByLen kws] else none
      match pass4 with
      | some i => dictSet pos sec i
      | none => pos) pos

/-- The literal annotation marker the re-scan recognises. -/
def MARKER : String := "⚑ VIP LEGAL REVIEW — "

/-- Re-scan one saved paragraph: recognise an annotation by the marker
string (exact topic match first, then prefix match) and a redlined
paragraph by deletion text containing a known find key; record the
earliest index per topic. -/
def rescanPara (secUpperMap fts : List (String × String)) (idx : Nat) (p : Para)
    (fp : List (String × Nat)) : List (String × Nat) :=
  let ptext := paraText p
  let fp1 :=
    if substr MARKER ptext then
      let after := strDrop ptext (firstIdxOfSub MARKER ptext + MARKER.length)
      if substr ":" after then
        let raw := pyUpper (pyStrip (strTake after (firstIdxOfSub ":" after)))
        let matched :=
          match dictGet secUpperMap raw with
          | some m => some m
          | none => ((secUpperMap.find? (fun kv => kv.1.isPrefixOf raw)).map (·.2))
        match matched with
        | some m => if idx < posGetD fp m then dictSet fp m idx else fp
        | none => fp
      else fp
    else fp
  let dts := delTextsOf p
  if dts ≠ [] then
    let combined := pyLower (String.join dts)
    match fts.find? (fun kv => substr kv.1 combined) with
    | some kv => if idx < posGetD fp1 kv.2 then dictSet fp1 kv.2 idx else fp1
    | none => fp1
  else fp1

/-- Re-scan of the saved body paragraphs in final document order. -/
def rescanBody (secUpperMap fts : List (String × String)) :
    List Para → Nat → List (String × Nat) → List (String × Nat)
  | [], _, fp => fp
  | p :: rest, idx, fp =>
    rescanBody secUpperMap fts rest (idx + 1) (rescanPara secUpperMap fts idx p fp)

/-- Merge the application-time positions into the re-scan positions,
keeping the earliest (lowest) index per topic. -/
def mergeEarliest (sp fp : List (String × Nat)) : List (String × Nat) :=
  sp.foldl (fun acc kv => keepEarliest acc kv.1 kv.2) fp

/-! ## The public entry point (redline.py apply_redlines) -/

/-- The summary returned by apply_redlines, together with the saved
document it wrote. -/
structure RLSummary where
  doc : Doc
  applied : Nat
  comments : Nat
  skipped : Nat
  section_actions : List (String × String)
  section_positions : List (String × Nat)
deriving DecidableEq, Repr

/-- Apply tracked-change redlines plus comment annotations to a
document, then reconstruct per-topic document-order positions. -/
def applyRedlines (doc : Doc) (redlines : List Redline) (issues : List Issue)
    (additionalIssues : List AddIssue) : RLSummary :=
  let issuesBySection := issues.foldl (fun acc it =>
    if it.sect ≠ "" then dictSet acc it.sect it else acc) []
  let pos0 := prescanPositions doc.body redlines
  let pos1 := fallbackPositions doc.body redlines issues pos0
  let st0 : EngineSt :=
    { body := doc.body, tbl := doc.tableParas, changeId := 1, applied := 0,
      comments := 0, actions := [], positions := pos1, findToSection := [] }
  let st1 := redlines.foldl (applyOneRedline issuesBySection) st0
  let st2 := issues.foldl step2One st1
  let finalBody :=
    if additionalIssues ≠ [] then st2.body ++ addIssuesParas additionalIssues else st2.body
  let savedDoc : Doc := { body := finalBody, tableParas := st2.tbl }
  let secUpperMap := st2.actions.foldl (fun acc kv => dictSet acc (pyUpper kv.1) kv.1) []
  let fp := rescanBody secUpperMap st2.findToSection savedDoc.body 0 []
  { doc := savedDoc, applied := st2.applied, comments := st2.comments, skipped := 0,
    section_actions := st2.actions,
    section_positions := mergeEarliest st2.positions fp }

/-! ## Section order-key derivation (app.py _section_sort_key and
_disk_section_sort_key) -/

/-- The roman-numeral table used by the Article branch. -/
def romanPairs : List (String × Nat) :=
  [("i", 1), ("ii", 2), ("iii", 3), ("iv", 4), ("v", 5), ("vi", 6), ("vii", 7),
   ("viii", 8), ("ix", 9), ("x", 10), ("xi", 11), ("xii", 12), ("xiii", 13),
   ("xiv", 14), ("xv", 15), ("xvi", 16), ("xvii", 17), ("xviii", 18),
   ("xix", 19), ("xx", 20)]

/-- The character class of the roman Article alternative. -/
def romanChars : List Char := ['i', 'v', 'x', 'l', 'c', 'd', 'm']

/-- Numeric value of a decimal digit string. -/
def natOfDigits (l : List Char) : Nat :=
  l.foldl (fun a c => a * 10 + (c.toNat - 48)) 0

/-- After a matched literal word: require at least one whitespace
character, then skip the whole run and return the remainder. -/
def afterWsRun : List Char → Option (List Char)
  | c :: t => if isPyWs c then some (t.dropWhile isPyWs) else none
  | [] => none

/-- Leftmost match of an exhibit-letter reference: the lowercase letter
following the word exhibit and whitespace. -/
def findExhibitLetter : List Char → Option Char
  | [] => none
  | c :: t =>
    match (if ("exhibit".toList).isPrefixOf (c :: t) then
        match afterWsRun ((c :: t).drop 7) with
        | some (c2 :: _) => if 'a' ≤ c2 && c2 ≤ 'z' then some c2 else none
        | _ => none
      else none) with
    | some ch => some ch
    | none => findExhibitLetter t

/-- Leftmost match of an embedded section-number reference: the digit
run following the word section and whitespace. -/
def findSectionNum : List Char → Option Nat
  | [] => none
  | c :: t =>
    match (if ("section".toList).isPrefixOf (c :: t) then
        match afterWsRun ((c :: t).drop 7) with
        | some rest =>
          let ds := rest.takeWhile Char.isDigit
          if ds ≠ [] then some (natOfDigits ds) else none
        | none => none
      else none) with
    | some n => some n
    | none => findSectionNum t

/-- Leftmost match of an Article reference: the roman-letter run, or
else the digit run, following the word article and whitespace. -/
def findArticleRef : List Char → Option (List Char)
  | [] => none
  | c :: t =>
    match (if ("article".toList).isPrefixOf (c :: t) then
        match afterWsRun ((c :: t).drop 7) with
        | some (c2 :: r2) =>
          if romanChars.contains c2 then
            some ((c2 :: r2).takeWhile (fun x => romanChars.contains x))
          else if c2.isDigit then
            some ((c2 :: r2).takeWhile Char.isDigit)
          else none
        | _ => none
      else none) with
    | some g => some g
    | none => findArticleRef t

/-- Leftmost dotted-or-bare numeral: the first digit run, with the digit
run after an immediately following dot when present. -/
def findNumberRef : List Char → Option (Nat × Option Nat)
  | [] => none
  | c :: t =>
    if c.isDigit then
      let ds := (c :: t).takeWhile Char.isDigit
      let rest := (c :: t).dropWhile Char.isDigit
      let minor := match rest with
        | '.' :: r2 =>
          let ms := r2.takeWhile Char.isDigit
          if ms ≠ [] then some (natOfDigits ms) else none
        | _ => none
      some (natOfDigits ds, minor)
    else findNumberRef t

/-- Convert a free-form lease section label to a sortable number
(app.py _section_sort_key), in ten-thousandths: the label values are
exact decimals with at most two fractional digits plus tenths offsets,
so scaling by 10000 keeps them in exactly-computable integers
(999.0 is 9990000, 3.01 is 30100, and so on). -/
def sectionSortKeyScaled (leaseSection : String) : Nat :=
  if leaseSection = "" then 9990000
  else
    let s := pyLower (pyStrip leaseSection)
    if (["999", "not found", "not addressed", "n/a", ""] : List String).contains s then
      9990000
    else if substr "exhibit" s then
      let base : Nat :=
        match findExhibitLetter s.toList with
        | some c => (800 + (c.toNat - 97)) * 10000
        | none => 800 * 10000
      match findSectionNum s.toList with
      | some n => base + n * 1000
      | none => base
    else
      match findArticleRef s.toList with
      | some g =>
        let gs := String.mk g
        (match dictGet romanPairs gs with
         | some v => v * 10000
         | none => if g ≠ [] && g.all Char.isDigit then natOfDigits g * 10000
                   else 999 * 10000)
      | none =>
        match findNumberRef s.toList with
        | some (major, minor) => major * 10000 + (minor.getD 0) * 100
        | none =>
          if (["basic terms", "summary", "recital", "preamble"] : List String).any
              (fun w => substr w s) then 5000
          else 9990000

/-- The sort key as the source's real number. -/
def sectionSortKey (leaseSection : String) : ℚ :=
  (sectionSortKeyScaled leaseSection : ℚ) / 10000

/-- The re-derivation of the sort key used when serving persisted jobs
(app.py _disk_section_sort_key); same logic restated, scaled by 10000. -/
def diskSectionSortKeyScaled (leaseSection : String) : Nat :=
  if leaseSection = "" then 9990000
  else
    let s := pyLower (pyStrip leaseSection)
    if (["999", "not found", "not addressed", "n/a", ""] : List String).contains s then
      9990000
    else if substr "exhibit" s then
      let base : Nat :=
        match findExhibitLetter s.toList with
        | some c => (800 + (c.toNat - 97)) * 10000
        | none => 800 * 10000
      match findSectionNum s.toList with
      | some n => base + n * 1000
      | none => base
    else
      match findArticleRef s.toList with
      | some g =>
        let gs := String.mk g
        (match dictGet romanPairs gs with
         | some v => v * 10000
         | none => if g ≠ [] && g.all Char.isDigit then natOfDigits g * 10000
                   else 999 * 10000)
      | none =>
        match findNumberRef s.toList with
        | some (major, minor) =>
          major * 10000 + (match minor with | some m => m * 100 | none => 0)
        | none =>
          if (["basic terms", "summary", "recital", "preamble"] : List String).any
              (fun w => substr w s) then 5000
          else 9990000

/-- The persisted-job sort key as the source's real number. -/
def diskSectionSortKey (leaseSection : String) : ℚ :=
  (diskSectionSortKeyScaled leaseSection : ℚ) / 10000

/-! ## Dictionary and position-map lemmas -/

theorem dictGet_dictSet_self {α : Type} (d : List (String × α)) (k : String) (v : α) :
    dictGet (dictSet d k v) k = some v := by
  induction d with
  | nil => simp [dictGet, dictSet]
  | cons hd tl ih =>
    obtain ⟨k', v'⟩ := hd
    by_cases h : k' = k
    · simp [dictGet, dictSet, h]
    · simp [dictGet, dictSet, h, ih]

theorem dictGet_dictSet_ne {α : Type} (d : List (String × α)) (k k' : String) (v : α)
    (h : k' ≠ k) : dictGet (dictSet d k v) k' = dictGet d k' := by
  have hne : k ≠ k' := fun hh => h hh.symm
  induction d with
  | nil => simp [dictGet, dictSet, hne]
  | cons hd tl ih =>
    obtain ⟨k₀, v₀⟩ := hd
    by_cases h₀ : k₀ = k
    · subst h₀
      simp [dictGet, dictSet, hne]
    · by_cases h₁ : k₀ = k'
      · simp [dictGet, dictSet, h₀, h₁, h]
      · simp [dictGet, dictSet, h₀, h₁, ih]

theorem keepEarliest_get_other (pos : List (String × Nat)) (key key' : String)
    (idx : Nat) (h : key' ≠ key) :
    dictGet (keepEarliest pos key idx) key' = dictGet pos key' := by
  unfold keepEarliest
  split
  · exact dictGet_dictSet_ne pos key key' idx h
  · rfl

theorem keepEarliest_never_raises (pos : List (String × Nat)) (key : String)
    (idx p : Nat) (h : dictGet pos key = some p) :
    ∃ q, dictGet (keepEarliest pos key idx) key = some q ∧ q ≤ p := by
  unfold keepEarliest
  by_cases hlt : idx < posGetD pos key
  · refine ⟨idx, ?_, ?_⟩
    · simp [hlt, dictGet_dictSet_self]
    · have : posGetD pos key = p := by simp [posGetD, h]
      omega
  · exact ⟨p, by simp [hlt, h], le_refl p⟩

theorem mergeEarliest_never_raises (sp fp : List (String × Nat)) (sec : String)
    (p : Nat) (h : dictGet fp sec = some p) :
    ∃ q, dictGet (mergeEarliest sp fp) sec = some q ∧ q ≤ p := by
  induction sp generalizing fp p with
  | nil => exact ⟨p, h, le_refl p⟩
  | cons hd tl ih =>
    obtain ⟨k, v⟩ := hd
    show ∃ q, dictGet (mergeEarliest tl (keepEarliest fp k v)) sec = some q ∧ q ≤ p
    by_cases hk : sec = k
    · subst hk
      obtain ⟨q₁, hq₁, hle₁⟩ := keepEarliest_never_raises fp sec v p h
      obtain ⟨q₂, hq₂, hle₂⟩ := ih (keepEarliest fp sec v) q₁ hq₁
      exact ⟨q₂, hq₂, le_trans hle₂ hle₁⟩
    · have hother : dictGet (keepEarliest fp k v) sec = some p := by
        rw [keepEarliest_get_other fp k sec v hk]; exact h
      exact ih (keepEarliest fp k v) p hother

theorem mergeEarliest_keeps_early (sp fp : List (String × Nat)) (sec : String)
    (p : Nat) (h : dictGet sp sec = some p) (hp : p < 999999) :
    ∃ q, dictGet (mergeEarliest sp fp) sec = some q ∧ q ≤ p := by
  induction sp generalizing fp with
  | nil => simp [dictGet] at h
  | cons hd tl ih =>
    obtain ⟨k, v⟩ := hd
    by_cases hk : k = sec
    · subst hk
      have hv : v = p := by
        have := h
        simp [dictGet] at this
        exact this
      subst hv
      have hstep : ∃ q₀, dictGet (keepEarliest fp k v) k = some q₀ ∧ q₀ ≤ v := by
        unfold keepEarliest
        by_cases hlt : v < posGetD fp k
        · exact ⟨v, by simp [hlt, dictGet_dictSet_self], le_refl v⟩
        · cases hfp : dictGet fp k with
          | none =>
            exfalso
            have : posGetD fp k = 999999 := by simp [posGetD, hfp]
            omega
          | some q₀ =>
            refine ⟨q₀, by simp [hlt, hfp], ?_⟩
            have : posGetD fp k = q₀ := by simp [posGetD, hfp]
            omega
      obtain ⟨q₀, hq₀, hle₀⟩ := hstep
      obtain ⟨q, hq, hle⟩ := mergeEarliest_never_raises tl (keepEarliest fp k v) k q₀ hq₀
      exact ⟨q, hq, le_trans hle hle₀⟩
    · have htl : dictGet tl sec = some p := by
        have := h
        simp [dictGet, hk] at this
        exact this
      exact ih (keepEarliest fp k v) htl

/-! ## Claim C3: earliest-wins position invariant -/

/-- Counterexample input for C3: the pre-scan matches the first
paragraph case-insensitively, while the redline application matches only
the second paragraph case-sensitively and overwrites the position. -/
def cex3p0 : Para :=
  { pPr := none, children := [PChild.run none "MAILED TO LANDLORD notice"] }

def cex3p1 : Para :=
  { pPr := none,
    children := [PChild.run none "please have it mailed to Landlord promptly"] }

def cex3doc : Doc := { body := [cex3p0, cex3p1], tableParas := [] }

def cex3redlines : List Redline :=
  [{ sect := "Notices", find := "mailed to Landlord",
     replace := "delivered to Landlord", reason := "" }]

/-- C3 counterexample: the pre-scan records position 0 for the topic
Notices, yet the returned section_positions holds 1 for it — a later
scan pass (the redline application) replaced the recorded position with
a larger value, contradicting the claim. -/
theorem C3_counterexample :
    dictGet (prescanPositions cex3doc.body cex3redlines) "Notices" = some 0 ∧
    dictGet (applyRedlines cex3doc cex3redlines [] []).section_positions "Notices" =
      some 1 := by
  exact ⟨by decide, by decide⟩

/-- C3 amended: the guarded position-update sites — the pre-scan update,
both comment-insertion updates, and the post-save merge — only ever
lower a recorded position: keepEarliest never raises an existing entry,
and the merged final map never raises an entry of either input map
(application-side entries below the sentinel included).  The
redline-application site, by contrast, overwrites the topic's entry with
the current redline's first matched paragraph index, which can exceed an
earlier recorded position, so the returned position for a topic is not
in general a lower bound of every earlier recorded one. -/
theorem C3_amended :
    (∀ (pos : List (String × Nat)) (key : String) (idx p : Nat),
      dictGet pos key = some p →
      ∃ q, dictGet (keepEarliest pos key idx) key = some q ∧ q ≤ p) ∧
    (∀ (sp fp : List (String × Nat)) (sec : String) (p : Nat),
      dictGet fp sec = some p →
      ∃ q, dictGet (mergeEarliest sp fp) sec = some q ∧ q ≤ p) ∧
    (∀ (sp fp : List (String × Nat)) (sec : String) (p : Nat),
      dictGet sp sec = some p → p < 999999 →
      ∃ q, dictGet (mergeEarliest sp fp) sec = some q ∧ q ≤ p) :=
  ⟨keepEarliest_never_raises, mergeEarliest_never_raises, mergeEarliest_keeps_early⟩

/-- C3 witness: the amended guarantees applied at concrete maps. -/
theorem C3_witness :
    (∃ q, dictGet (keepEarliest [("Rent", 7)] "Rent" 3) "Rent" = some q ∧ q ≤ 7) ∧
    (∃ q, dictGet (mergeEarliest [("Rent", 9)] [("Rent", 5)]) "Rent" = some q ∧ q ≤ 5) ∧
    (∃ q, dictGet (mergeEarliest [("Rent", 2)] [("Rent", 5)]) "Rent" = some q ∧ q ≤ 2) :=
  ⟨C3_amended.1 [("Rent", 7)] "Rent" 3 7 (by decide),
   C3_amended.2.1 [("Rent", 9)] [("Rent", 5)] "Rent" 5 (by decide),
   C3_amended.2.2 [("Rent", 2)] [("Rent", 5)] "Rent" 2 (by decide) (by decide)⟩

/-! ## Claims C4 and C5: section order-key derivation -/

/-- The uppercase exhibit letters quantified over in C4. -/
def ucLetters : List Char :=
  ['A', 'B', 'C', 'D', 'E', 'F', 'G', 'H', 'I', 'J', 'K', 'L', 'M',
   'N', 'O', 'P', 'Q', 'R', 'S', 'T', 'U', 'V', 'W', 'X', 'Y', 'Z']

/-- Scaled exhibit key values for every letter, plus the letter bound. -/
theorem exhibit_scaled_eq : ∀ ch ∈ ucLetters,
    sectionSortKeyScaled ("Exhibit " ++ String.singleton ch) = (735 + ch.toNat) * 10000 ∧
    sectionSortKeyScaled ("Exhibit " ++ String.singleton ch ++ " Section 3") =
      (735 + ch.toNat) * 10000 + 3000 := by
  decide

/-- C4 counterexample: the claim demands 800 + 26 times the letter
offset, i.e. 852 for Exhibit C, but the derivation returns 802. -/
theorem C4_counterexample :
    sectionSortKey "Exhibit C" = 802 ∧
    sectionSortKey "Exhibit C" ≠ 800 + 26 * 2 := by
  have h : sectionSortKeyScaled "Exhibit C" = 8020000 := by decide
  unfold sectionSortKey
  rw [h]
  norm_num

/-- C4 amended: for every label Exhibit followed by a letter, the order
key is 800 plus the letter's 0-based alphabet offset (once, not 26
times), and an embedded Section n reference offsets it by a further
n tenths. -/
theorem C4_amended : ∀ ch ∈ ucLetters,
    sectionSortKey ("Exhibit " ++ String.singleton ch) = 800 + ((ch.toNat : ℚ) - 65) ∧
    sectionSortKey ("Exhibit " ++ String.singleton ch ++ " Section 3") =
      800 + ((ch.toNat : ℚ) - 65) + 3 * 0.1 := by
  intro ch hch
  obtain ⟨h1, h2⟩ := exhibit_scaled_eq ch hch
  constructor
  · unfold sectionSortKey
    rw [h1]
    push_cast
    field_simp
    ring
  · unfold sectionSortKey
    rw [h2]
    push_cast
    field_simp
    ring_nf

/-- C4 witness: the amended key evaluated for Exhibit C. -/
theorem C4_witness :
    'C' ∈ ucLetters ∧
    sectionSortKey ("Exhibit " ++ String.singleton 'C') = 800 + (('C'.toNat : ℚ) - 65) :=
  ⟨by decide, (C4_amended 'C' (by decide)).1⟩

/-- C5: the exact boundary values of the order-key derivation, for both
the in-request derivation and the persisted-job re-derivation. -/
theorem C5_sort_key_boundary_values :
    sectionSortKey "3.1" = 3.01 ∧
    sectionSortKey "Article IV" = 4.0 ∧
    sectionSortKey "Exhibit C" = 802.0 ∧
    sectionSortKey "999" = 999.0 ∧
    sectionSortKey "" = 999.0 ∧
    diskSectionSortKey "3.1" = 3.01 ∧
    diskSectionSortKey "Article IV" = 4.0 ∧
    diskSectionSortKey "Exhibit C" = 802.0 ∧
    diskSectionSortKey "999" = 999.0 ∧
    diskSectionSortKey "" = 999.0 := by
  have h1 : sectionSortKeyScaled "3.1" = 30100 := by decide
  have h2 : sectionSortKeyScaled "Article IV" = 40000 := by decide
  have h3 : sectionSortKeyScaled "Exhibit C" = 8020000 := by decide
  have h4 : sectionSortKeyScaled "999" = 9990000 := by decide
  have h5 : sectionSortKeyScaled "" = 9990000 := by decide
  have d1 : diskSectionSortKeyScaled "3.1" = 30100 := by decide
  have d2 : diskSectionSortKeyScaled "Article IV" = 40000 := by decide
  have d3 : diskSectionSortKeyScaled "Exhibit C" = 8020000 := by decide
  have d4 : diskSectionSortKeyScaled "999" = 9990000 := by decide
  have d5 : diskSectionSortKeyScaled "" = 9990000 := by decide
  unfold sectionSortKey diskSectionSortKey
  rw [h1, h2, h3, h4, h5, d1, d2, d3, d4, d5]
  norm_num

/-! ## Claim C1: end-to-end empty-replace scenario -/

/-- The C1 scenario document: one paragraph with the quoted sentence. -/
def cex1para : Para :=
  { pPr := none,
    children := [PChild.run none "Tenant shall pay by certified check mailed to Landlord"] }

def cex1doc : Doc := { body := [cex1para], tableParas := [] }

/-- The C1 scenario redline: find the phrase, replace with nothing. -/
def cex1redlines : List Redline :=
  [{ sect := "Payment", find := "mailed to Landlord", replace := "", reason := "" }]

/-- C1 counterexample: with an empty replace text the request is skipped
by the degenerate-request guard, so the summary does not report one
applied substitution as the claim demands. -/
theorem C1_counterexample :
    (applyRedlines cex1doc cex1redlines [] []).applied ≠ 1 := by
  decide

/-- C1 amended: on the claimed scenario the engine skips the request
because the replace text is empty: the saved document is the input
document unchanged — no tracked deletion or insertion is produced — and
the summary reports zero applied substitutions, zero comments and no
action for the topic, while the pre-scan still records position 0 for
the Payment topic. -/
theorem C1_amended :
    applyRedlines cex1doc cex1redlines [] [] =
      { doc := cex1doc, applied := 0, comments := 0, skipped := 0,
        section_actions := [], section_positions := [("Payment", 0)] } := by
  decide

/-! ## Lemmas about redline application -/

/-- The found flag of applyToPara is exactly the exact-or-normalized
match test. -/
theorem applyToPara_ok (p : Para) (f r : String) (cid : Nat) :
    (applyToPara p f r cid).2.2 = paraMatches f p := by
  unfold applyToPara paraMatches
  by_cases h1 : substr f (paraText p) = true
  · simp [h1]
  · by_cases h2 : substr (normalize f) (normalize (paraText p)) = true
    · simp [h1, h2]
    · simp [h1, h2]

/-- On an exact match, applyToPara rewrites via applyToParaCore with the
find text itself. -/
theorem applyToPara_exact (p : Para) (f r : String) (cid : Nat)
    (h : substr f (paraText p) = true) :
    applyToPara p f r cid = (applyToParaCore p f (paraText p) r cid, cid + 2, true) := by
  unfold applyToPara
  simp [h]

/-- The rewritten paragraph carries a tracked deletion of the matched
text. -/
theorem applyToParaCore_del_mem (p : Para) (af full r : String) (cid : Nat) :
    PChild.del cid (getRpr p) af ∈ (applyToParaCore p af full r cid).children := by
  simp [applyToParaCore]

/-- Paragraph i of the body-loop output, when input paragraph i matches
the find text exactly, carries a tracked deletion of the find text. -/
theorem redlineParasLoop_get (sect f r : String) :
    ∀ (paras : List Para) (idx cid applied : Nat) (acts : List (String × String))
      (pos : List (String × Nat)) (found : Bool) (i : Nat) (p : Para),
      paras[i]? = some p → substr f (paraText p) = true →
      ∃ p', (redlineParasLoop sect f r paras idx cid applied acts pos found).1[i]? = some p' ∧
        ∃ n rpr, PChild.del n rpr f ∈ p'.children := by
  intro paras
  induction paras with
  | nil => intro idx cid applied acts pos found i p hi; simp at hi
  | cons hd tl ih =>
    intro idx cid applied acts pos found i p hi hm
    match i with
    | 0 =>
      simp only [List.getElem?_cons_zero, Option.some.injEq] at hi
      subst hi
      refine ⟨(applyToPara hd f r cid).1, ?_, cid, getRpr hd, ?_⟩
      · simp [redlineParasLoop]
      · rw [applyToPara_exact hd f r cid hm]
        exact applyToParaCore_del_mem hd f (paraText hd) r cid
    | Nat.succ j =>
      simp only [List.getElem?_cons_succ] at hi
      obtain ⟨p', hp', hdel⟩ := ih _ _ _ _ _ _ j p hi hm
      exact ⟨p', by simpa [redlineParasLoop] using hp', hdel⟩

/-- The found flag after the body loop: the incoming flag or any
paragraph matching. -/
theorem redlineParasLoop_found (sect f r : String) :
    ∀ (paras : List Para) (idx cid applied : Nat) (acts : List (String × String))
      (pos : List (String × Nat)) (found : Bool),
      (redlineParasLoop sect f r paras idx cid applied acts pos found).2.2.2.2.2 =
        (found || paras.any (paraMatches f)) := by
  intro paras
  induction paras with
  | nil => intro idx cid applied acts pos found; simp [redlineParasLoop]
  | cons hd tl ih =>
    intro idx cid applied acts pos found
    simp only [redlineParasLoop, List.any_cons]
    rw [ih]
    rw [applyToPara_ok]
    rw [Bool.or_assoc]

/-- Table-loop analogue of redlineParasLoop_get. -/
theorem redlineTableLoop_get (sect f r : String) :
    ∀ (paras : List Para) (cid applied : Nat) (acts : List (String × String))
      (pos : List (String × Nat)) (found : Bool) (i : Nat) (p : Para),
      paras[i]? = some p → substr f (paraText p) = true →
      ∃ p', (redlineTableLoop sect f r paras cid applied acts pos found).1[i]? = some p' ∧
        ∃ n rpr, PChild.del n rpr f ∈ p'.children := by
  intro paras
  induction paras with
  | nil => intro cid applied acts pos found i p hi; simp at hi
  | cons hd tl ih =>
    intro cid applied acts pos found i p hi hm
    match i with
    | 0 =>
      simp only [List.getElem?_cons_zero, Option.some.injEq] at hi
      subst hi
      refine ⟨(applyToPara hd f r cid).1, ?_, cid, getRpr hd, ?_⟩
      · simp [redlineTableLoop]
      · rw [applyToPara_exact hd f r cid hm]
        exact applyToParaCore_del_mem hd f (paraText hd) r cid
    | Nat.succ j =>
      simp only [List.getElem?_cons_succ] at hi
      obtain ⟨p', hp', hdel⟩ := ih _ _ _ _ _ j p hi hm
      exact ⟨p', by simpa [redlineTableLoop] using hp', hdel⟩

/-- Table-loop analogue of redlineParasLoop_found. -/
theorem redlineTableLoop_found (sect f r : String) :
    ∀ (paras : List Para) (cid applied : Nat) (acts : List (String × String))
      (pos : List (String × Nat)) (found : Bool),
      (redlineTableLoop sect f r paras cid applied acts pos found).2.2.2.2.2 =
        (found || paras.any (paraMatches f)) := by
  intro paras
  induction paras with
  | nil => intro cid applied acts pos found; simp [redlineTableLoop]
  | cons hd tl ih =>
    intro cid applied acts pos found
    simp only [redlineTableLoop, List.any_cons]
    rw [ih]
    rw [applyToPara_ok]
    rw [Bool.or_assoc]

/-! ## Claim C2: all occurrences are rewritten -/

/-- For a single nondegenerate redline that matches somewhere, the saved
document's paragraphs are exactly the step-1 loop outputs (no comment
fallback fires and no later pass touches paragraph content). -/
theorem applyRedlines_single_shape (doc : Doc) (rl : Redline)
    (hf : pyStrip rl.find ≠ "") (hr : pyStrip rl.replace ≠ "")
    (hfr : pyStrip rl.find ≠ pyStrip rl.replace)
    (hany : (doc.body.any (paraMatches (pyStrip rl.find)) ||
             doc.tableParas.any (paraMatches (pyStrip rl.find))) = true) :
    (applyRedlines doc [rl] [] []).doc.body =
      (redlineParasLoop rl.sect (pyStrip rl.find) (pyStrip rl.replace) doc.body 0 1 0 []
        (fallbackPositions doc.body [rl] [] (prescanPositions doc.body [rl])) false).1 ∧
    (applyRedlines doc [rl] [] []).doc.tableParas =
      (let b := redlineParasLoop rl.sect (pyStrip rl.find) (pyStrip rl.replace) doc.body 0 1 0 []
        (fallbackPositions doc.body [rl] [] (prescanPositions doc.body [rl])) false
       (redlineTableLoop rl.sect (pyStrip rl.find) (pyStrip rl.replace) doc.tableParas
        b.2.1 b.2.2.1 b.2.2.2.1 b.2.2.2.2.1 b.2.2.2.2.2).1) := by
  have hguard : (pyStrip rl.find = "" || pyStrip rl.replace = ""
      || pyStrip rl.find = pyStrip rl.replace) = false := by
    simp [hf, hr, hfr]
  have hfound : ∀ (cid applied : Nat) (acts : List (String × String))
      (pos : List (String × Nat)),
      (redlineTableLoop rl.sect (pyStrip rl.find) (pyStrip rl.replace) doc.tableParas
        cid applied acts pos
        (doc.body.any (paraMatches (pyStrip rl.find)))).2.2.2.2.2 = true := by
    intro cid applied acts pos
    rw [redlineTableLoop_found]
    simpa using hany
  simp only [applyRedlines, List.foldl, applyOneRedline, hguard, Bool.false_eq_true,
    if_false]
  rw [redlineParasLoop_found]
  simp only [Bool.false_or]
  rw [hfound]
  simp

/-- The C2 counterexample paragraph: the find text occurs twice in one
paragraph. -/
def cex2para : Para := { pPr := none, children := [PChild.run none "XX"] }

def cex2doc : Doc := { body := [cex2para], tableParas := [] }

def cex2redlines : List Redline :=
  [{ sect := "Entity", find := "X", replace := "Y", reason := "" }]

/-- C2 counterexample: the find text occurs twice in the single
paragraph, but only one deletion/insertion pair is produced and the
second occurrence survives as a plain, unmarked run in the output. -/
theorem C2_counterexample :
    countOcc "X" (paraText cex2para) = 2 ∧
    (applyRedlines cex2doc cex2redlines [] []).applied = 1 ∧
    (applyRedlines cex2doc cex2redlines [] []).doc.body =
      [{ pPr := none,
         children := [PChild.del 1 none "X", PChild.ins 2 none "Y",
                      PChild.run none "X"] }] := by
  refine ⟨by decide, by decide, by decide⟩

/-- C2 amended: a nondegenerate redline is applied to every paragraph
and every table-cell paragraph in which its find text occurs: each such
block is rewritten with a tracked deletion of the find text (covering
the block's first occurrence).  Occurrences after the first inside one
and the same block are not rewritten and survive unmarked, as the
counterexample shows. -/
theorem C2_amended (doc : Doc) (rl : Redline)
    (hf : pyStrip rl.find ≠ "") (hr : pyStrip rl.replace ≠ "")
    (hfr : pyStrip rl.find ≠ pyStrip rl.replace) :
    (∀ (i : Nat) (p : Para), doc.body[i]? = some p →
      substr (pyStrip rl.find) (paraText p) = true →
      ∃ p' : Para, (applyRedlines doc [rl] [] []).doc.body[i]? = some p' ∧
        ∃ n rpr, PChild.del n rpr (pyStrip rl.find) ∈ p'.children) ∧
    (∀ (i : Nat) (p : Para), doc.tableParas[i]? = some p →
      substr (pyStrip rl.find) (paraText p) = true →
      ∃ p' : Para, (applyRedlines doc [rl] [] []).doc.tableParas[i]? = some p' ∧
        ∃ n rpr, PChild.del n rpr (pyStrip rl.find) ∈ p'.children) := by
  constructor
  · intro i p hi hm
    have hmem : p ∈ doc.body := List.getElem?_mem hi
    have hany : (doc.body.any (paraMatches (pyStrip rl.find)) ||
        doc.tableParas.any (paraMatches (pyStrip rl.find))) = true := by
      have : doc.body.any (paraMatches (pyStrip rl.find)) = true :=
        List.any_eq_true.mpr ⟨p, hmem, by simp [paraMatches, hm]⟩
      simp [this]
    have hshape := applyRedlines_single_shape doc rl hf hr hfr hany
    rw [hshape.1]
    exact redlineParasLoop_get rl.sect (pyStrip rl.find) (pyStrip rl.replace)
      doc.body 0 1 0 [] _ false i p hi hm
  · intro i p hi hm
    have hmem : p ∈ doc.tableParas := List.getElem?_mem hi
    have hany : (doc.body.any (paraMatches (pyStrip rl.find)) ||
        doc.tableParas.any (paraMatches (pyStrip rl.find))) = true := by
      have : doc.tableParas.any (paraMatches (pyStrip rl.find)) = true :=
        List.any_eq_true.mpr ⟨p, hmem, by simp [paraMatches, hm]⟩
      simp [this]
    have hshape := applyRedlines_single_shape doc rl hf hr hfr hany
    rw [hshape.2]
    exact redlineTableLoop_get rl.sect (pyStrip rl.find) (pyStrip rl.replace)
      doc.tableParas _ _ _ _ _ i p hi hm

/-- C2 witness: the amended guarantee applied to a concrete two-block
document in which the find text occurs in both blocks. -/
theorem C2_witness :
    pyStrip "base rent" ≠ "" ∧ pyStrip "minimum rent" ≠ "" ∧
    pyStrip "base rent" ≠ pyStrip "minimum rent" ∧
    (∃ p', (applyRedlines
        { body := [{ pPr := none, children := [PChild.run none "the base rent is due"] }],
          tableParas := [{ pPr := none, children := [PChild.run none "base rent: $100"] }] }
        [{ sect := "Rent", find := "base rent", replace := "minimum rent", reason := "" }]
        [] []).doc.body[0]? = some p' ∧
      ∃ n rpr, PChild.del n rpr (pyStrip "base rent") ∈ p'.children) := by
  refine ⟨by decide, by decide, by decide, ?_⟩
  exact (C2_amended
    { body := [{ pPr := none, children := [PChild.run none "the base rent is due"] }],
      tableParas := [{ pPr := none, children := [PChild.run none "base rent: $100"] }] }
    { sect := "Rent", find := "base rent", replace := "minimum rent", reason := "" }
    (by decide) (by decide) (by decide)).1 0
    { pPr := none, children := [PChild.run none "the base rent is due"] }
    (by decide) (by decide)

/-! ## Claim C8: confidence-score monotonicity and bounds -/

/-- The section-name component of the confidence score, in hundredths. -/
def snScoreH (paraTxt sectionName : String) : Nat :=
  if substr (pyLower sectionName) (pyStrip (pyLower paraTxt)) then 40 else 0

/-- The keyword component of the confidence score, in hundredths. -/
def kwScoreH (paraTxt : String) (keywords : List String) : Nat :=
  let t := pyStrip (pyLower paraTxt)
  if keywords ≠ [] && keywords.all (fun kw => substr kw t) then 30
  else if keywords ≠ [] && keywords.any (fun kw => substr kw t) then 10
  else 0

/-- The brevity component of the confidence score, in hundredths. -/
def lenScoreH (paraTxt : String) : Nat :=
  let length := (pyStrip paraTxt).length
  if length ≤ 80 then 30 else if length ≤ 160 then 15 else 0

/-- The confidence score is the capped sum of its three components. -/
theorem confH_eq (paraTxt sectionName : String) (keywords : List String) :
    commentConfidenceH paraTxt sectionName keywords =
      min (snScoreH paraTxt sectionName + kwScoreH paraTxt keywords +
        lenScoreH paraTxt) 100 := rfl

theorem snScoreH_le (t sn : String) : snScoreH t sn ≤ 40 := by
  unfold snScoreH; split <;> omega

theorem kwScoreH_le (t : String) (kws : List String) : kwScoreH t kws ≤ 30 := by
  unfold kwScoreH; dsimp only; split_ifs <;> omega

theorem lenScoreH_le (t : String) : lenScoreH t ≤ 30 := by
  unfold lenScoreH; dsimp only; split_ifs <;> omega

theorem confH_le_100 (t sn : String) (kws : List String) :
    commentConfidenceH t sn kws ≤ 100 := by
  rw [confH_eq]; exact Nat.min_le_right _ _

theorem snScoreH_mono (t1 t2 sn : String)
    (h : substr (pyLower sn) (pyStrip (pyLower t1)) = true →
         substr (pyLower sn) (pyStrip (pyLower t2)) = true) :
    snScoreH t1 sn ≤ snScoreH t2 sn := by
  unfold snScoreH
  by_cases h1 : substr (pyLower sn) (pyStrip (pyLower t1)) = true
  · simp [h1, h h1]
  · simp [h1]

theorem kwScoreH_mono (t1 t2 : String) (kws : List String)
    (hall : kws.all (fun kw => substr kw (pyStrip (pyLower t1))) = true →
            kws.all (fun kw => substr kw (pyStrip (pyLower t2))) = true)
    (hany : kws.any (fun kw => substr kw (pyStrip (pyLower t1))) = true →
            kws.any (fun kw => substr kw (pyStrip (pyLower t2))) = true) :
    kwScoreH t1 kws ≤ kwScoreH t2 kws := by
  unfold kwScoreH
  dsimp only
  by_cases hk : kws = []
  · simp [hk]
  · by_cases a1 : kws.all (fun kw => substr kw (pyStrip (pyLower t1))) = true <;>
    by_cases a2 : kws.all (fun kw => substr kw (pyStrip (pyLower t2))) = true <;>
    by_cases n1 : kws.any (fun kw => substr kw (pyStrip (pyLower t1))) = true <;>
    by_cases n2 : kws.any (fun kw => substr kw (pyStrip (pyLower t2))) = true <;>
    simp only [ne_eq, hk, not_false_eq_true, decide_eq_true_eq, Bool.and_eq_true,
      decide_eq_true_iff, a1, a2, n1, n2, and_true, and_false, if_true, if_false,
      true_and, false_and] <;>
    first
    | omega
    | exact absurd (hall a1) a2
    | exact absurd (hany n1) n2
    | simp

theorem lenScoreH_anti (t1 t2 : String)
    (h : (pyStrip t2).length ≤ (pyStrip t1).length) :
    lenScoreH t1 ≤ lenScoreH t2 := by
  unfold lenScoreH
  dsimp only
  split_ifs <;> omega

theorem lenScoreH_band_eq (t1 t2 : String)
    (h80 : (pyStrip t1).length ≤ 80 ↔ (pyStrip t2).length ≤ 80)
    (h160 : (pyStrip t1).length ≤ 160 ↔ (pyStrip t2).length ≤ 160) :
    lenScoreH t1 = lenScoreH t2 := by
  unfold lenScoreH
  dsimp only
  split_ifs <;> first
  | rfl
  | omega

/-- Componentwise monotonicity of the capped confidence sum. -/
theorem confH_mono (t1 t2 sn : String) (kws : List String)
    (h1 : snScoreH t1 sn ≤ snScoreH t2 sn)
    (h2 : kwScoreH t1 kws ≤ kwScoreH t2 kws)
    (h3 : lenScoreH t1 ≤ lenScoreH t2) :
    commentConfidenceH t1 sn kws ≤ commentConfidenceH t2 sn kws := by
  rw [confH_eq, confH_eq]
  exact min_le_min (by omega) (le_refl 100)

/-- Monotonicity transfers to the rational score. -/
theorem commentConfidence_mono_of_H (t1 t2 sn : String) (kws : List String)
    (h : commentConfidenceH t1 sn kws ≤ commentConfidenceH t2 sn kws) :
    commentConfidence t1 sn kws ≤ commentConfidence t2 sn kws := by
  unfold commentConfidence
  have h' : (commentConfidenceH t1 sn kws : ℚ) ≤ (commentConfidenceH t2 sn kws : ℚ) := by
    exact_mod_cast h
  gcongr

/-- C8: the anchor-confidence score always lies in the closed interval
0.0 to 1.0, and it is monotonically non-decreasing in each contributing
condition independently: making the section name appear in the text,
raising the keyword-match level (none to some to all), or shortening the
stripped paragraph, with the respective other conditions unchanged,
never lowers the score. -/
theorem C8_confidence_monotone :
    (∀ (t sn : String) (kws : List String),
      0 ≤ commentConfidence t sn kws ∧ commentConfidence t sn kws ≤ 1) ∧
    (∀ (t1 t2 sn : String) (kws : List String),
      (substr (pyLower sn) (pyStrip (pyLower t1)) = true →
       substr (pyLower sn) (pyStrip (pyLower t2)) = true) →
      kws.all (fun kw => substr kw (pyStrip (pyLower t1))) =
        kws.all (fun kw => substr kw (pyStrip (pyLower t2))) →
      kws.any (fun kw => substr kw (pyStrip (pyLower t1))) =
        kws.any (fun kw => substr kw (pyStrip (pyLower t2))) →
      ((pyStrip t1).length ≤ 80 ↔ (pyStrip t2).length ≤ 80) →
      ((pyStrip t1).length ≤ 160 ↔ (pyStrip t2).length ≤ 160) →
      commentConfidence t1 sn kws ≤ commentConfidence t2 sn kws) ∧
    (∀ (t1 t2 sn : String) (kws : List String),
      substr (pyLower sn) (pyStrip (pyLower t1)) =
        substr (pyLower sn) (pyStrip (pyLower t2)) →
      (kws.all (fun kw => substr kw (pyStrip (pyLower t1))) = true →
       kws.all (fun kw => substr kw (pyStrip (pyLower t2))) = true) →
      (kws.any (fun kw => substr kw (pyStrip (pyLower t1))) = true →
       kws.any (fun kw => substr kw (pyStrip (pyLower t2))) = true) →
      ((pyStrip t1).length ≤ 80 ↔ (pyStrip t2).length ≤ 80) →
      ((pyStrip t1).length ≤ 160 ↔ (pyStrip t2).length ≤ 160) →
      commentConfidence t1 sn kws ≤ commentConfidence t2 sn kws) ∧
    (∀ (t1 t2 sn : String) (kws : List String),
      substr (pyLower sn) (pyStrip (pyLower t1)) =
        substr (pyLower sn) (pyStrip (pyLower t2)) →
      kws.all (fun kw => substr kw (pyStrip (pyLower t1))) =
        kws.all (fun kw => substr kw (pyStrip (pyLower t2))) →
      kws.any (fun kw => substr kw (pyStrip (pyLower t1))) =
        kws.any (fun kw => substr kw (pyStrip (pyLower t2))) →
      (pyStrip t2).length ≤ (pyStrip t1).length →
      commentConfidence t1 sn kws ≤ commentConfidence t2 sn kws) := by
  refine ⟨?_, ?_, ?_, ?_⟩
  · intro t sn kws
    constructor
    · exact div_nonneg (Nat.cast_nonneg _) (by norm_num)
    · rw [commentConfidence, div_le_one (by norm_num)]
      exact_mod_cast confH_le_100 t sn kws
  · intro t1 t2 sn kws hsn hall hany h80 h160
    apply commentConfidence_mono_of_H
    exact confH_mono t1 t2 sn kws (snScoreH_mono t1 t2 sn hsn)
      (kwScoreH_mono t1 t2 kws (fun h => hall ▸ h) (fun h => hany ▸ h))
      (le_of_eq (lenScoreH_band_eq t1 t2 h80 h160))
  · intro t1 t2 sn kws hsn hall hany h80 h160
    apply commentConfidence_mono_of_H
    exact confH_mono t1 t2 sn kws (snScoreH_mono t1 t2 sn (fun h => hsn ▸ h))
      (kwScoreH_mono t1 t2 kws hall hany)
      (le_of_eq (lenScoreH_band_eq t1 t2 h80 h160))
  · intro t1 t2 sn kws hsn hall hany hlen
    apply commentConfidence_mono_of_H
    exact confH_mono t1 t2 sn kws (snScoreH_mono t1 t2 sn (fun h => hsn ▸ h))
      (kwScoreH_mono t1 t2 kws (fun h => hall ▸ h) (fun h => hany ▸ h))
      (lenScoreH_anti t1 t2 hlen)

/-- C8 witness: the monotonicity statements and bounds at concrete
paragraph texts (adding the section name, adding a keyword match,
shortening the paragraph). -/
theorem C8_witness :
    commentConfidence "general liability provisions apply" "insurance" ["liability"] ≤
      commentConfidence "insurance liability provisions okay" "insurance" ["liability"] ∧
    commentConfidence "general coverage provisions apply" "insurance" ["liability"] ≤
      commentConfidence "general liability provisions apply" "insurance" ["liability"] ∧
    (0 ≤ commentConfidence "general liability provisions apply" "insurance" ["liability"] ∧
     commentConfidence "general liability provisions apply" "insurance" ["liability"] ≤ 1) :=
  ⟨C8_confidence_monotone.2.1 "general liability provisions apply"
      "insurance liability provisions okay" "insurance" ["liability"]
      (by decide) (by decide) (by decide) (by decide) (by decide),
   C8_confidence_monotone.2.2.1 "general coverage provisions apply"
      "general liability provisions apply" "insurance" ["liability"]
      (by decide) (by decide) (by decide) (by decide) (by decide),
   C8_confidence_monotone.1 "general liability provisions apply" "insurance" ["liability"]⟩

/-! ## Claim C9: no topic-name match forces an end-of-document append -/

/-- Without a verbatim section-name hit, the confidence score cannot
exceed 60 hundredths. -/
theorem confH_le_60 (t sn : String) (kws : List String)
    (h : substr (pyLower sn) (pyStrip (pyLower t)) = false) :
    commentConfidenceH t sn kws ≤ 60 := by
  rw [confH_eq]
  have h1 : snScoreH t sn = 0 := by unfold snScoreH; simp [h]
  have h2 := kwScoreH_le t kws
  have h3 := lenScoreH_le t
  omega

/-- The best score found by the anchor loop is bounded by any bound that
holds for the incoming best score and for every non-empty paragraph. -/
theorem bestAnchorLoop_le (sn : String) (kws : List String) (B : Nat) :
    ∀ (paras : List Para) (idx bIdx bScore : Nat) (bSome : Bool),
      bScore ≤ B →
      (∀ p ∈ paras, pyStrip (paraText p) ≠ "" →
        commentConfidenceH (paraText p) sn kws ≤ B) →
      (bestAnchorLoop sn kws paras idx bIdx bScore bSome).2.1 ≤ B := by
  intro paras
  induction paras with
  | nil => intro idx bIdx bScore bSome hb hp; simpa [bestAnchorLoop] using hb
  | cons hd tl ih =>
    intro idx bIdx bScore bSome hb hp
    unfold bestAnchorLoop
    dsimp only
    by_cases he : pyStrip (paraText hd) = ""
    · rw [if_pos he]
      exact ih _ _ _ _ hb (fun p hm hne => hp p (List.mem_cons_of_mem _ hm) hne)
    · rw [if_neg he]
      have hhd : commentConfidenceH (paraText hd) sn kws ≤ B :=
        hp hd (List.mem_cons_self _ _) he
      by_cases hsc : commentConfidenceH (paraText hd) sn kws > bScore
      · rw [if_pos hsc]
        exact ih _ _ _ _ hhd (fun p hm hne => hp p (List.mem_cons_of_mem _ hm) hne)
      · rw [if_neg hsc]
        exact ih _ _ _ _ hb (fun p hm hne => hp p (List.mem_cons_of_mem _ hm) hne)

/-- C9: when no non-empty body paragraph contains the lowercased topic
name verbatim, every paragraph scores at most 0.60, which is below the
0.80 threshold, so the annotation is appended at the end of the document
and the sentinel 999999 is returned. -/
theorem C9_low_confidence_append (doc : Doc) (sn issueText vip : String)
    (h : ∀ p ∈ doc.body, pyStrip (paraText p) ≠ "" →
      substr (pyLower sn) (pyStrip (pyLower (paraText p))) = false) :
    (∀ p ∈ doc.body, pyStrip (paraText p) ≠ "" →
      commentConfidence (paraText p) sn (keywordsOf sn) ≤ 0.60) ∧
    (0.60 : ℚ) < 0.80 ∧
    (insertCommentAnnot doc sn issueText vip none).2 = 999999 ∧
    (insertCommentAnnot doc sn issueText vip none).1.body =
      doc.body ++ [commentParaOf sn issueText vip] := by
  have hH : ∀ p ∈ doc.body, pyStrip (paraText p) ≠ "" →
      commentConfidenceH (paraText p) sn (keywordsOf sn) ≤ 60 :=
    fun p hm hne => confH_le_60 _ _ _ (h p hm hne)
  have hloop := bestAnchorLoop_le sn (keywordsOf sn) 60 doc.body 0 999999 0 false
    (by omega) hH
  have hlt : ¬ (CONFIDENCE_THRESHOLD ≤
      (bestAnchorLoop sn (keywordsOf sn) doc.body 0 999999 0 false).2.1) := by
    unfold CONFIDENCE_THRESHOLD
    omega
  refine ⟨?_, by norm_num, ?_, ?_⟩
  · intro p hm hne
    have hh : (commentConfidenceH (paraText p) sn (keywordsOf sn) : ℚ) ≤ 60 := by
      exact_mod_cast hH p hm hne
    unfold commentConfidence
    calc (commentConfidenceH (paraText p) sn (keywordsOf sn) : ℚ) / 100 ≤ 60 / 100 := by
          gcongr
      _ = 0.60 := by norm_num
  · unfold insertCommentAnnot
    dsimp only
    rw [if_neg (fun hc => hlt hc.1)]
  · unfold insertCommentAnnot
    dsimp only
    rw [if_neg (fun hc => hlt hc.1)]

/-- C9 witness: a document none of whose paragraphs mentions the topic
name gets its annotation appended at the bottom. -/
theorem C9_witness :
    (∀ p ∈ ({ body := [{ pPr := none, children := [PChild.run none "rent is due monthly"] }],
              tableParas := [] } : Doc).body,
      pyStrip (paraText p) ≠ "" →
      substr (pyLower "Insurance") (pyStrip (pyLower (paraText p))) = false) ∧
    (insertCommentAnnot
      { body := [{ pPr := none, children := [PChild.run none "rent is due monthly"] }],
        tableParas := [] } "Insurance" "Missing coverage" "" none).2 = 999999 :=
  ⟨by decide,
   (C9_low_confidence_append
     { body := [{ pPr := none, children := [PChild.run none "rent is due monthly"] }],
       tableParas := [] } "Insurance" "Missing coverage" "" (by decide)).2.2.1⟩

/-! ## Claim C10: degenerate requests are skipped without side effects -/

/-- Recording a comment never turns an entry into "redline". -/
theorem recordAction_no_redline (acts : List (String × String)) (sec k : String)
    (ha : dictGet acts k ≠ some "redline") :
    dictGet (recordAction acts sec "comment") k ≠ some "redline" := by
  unfold recordAction
  cases hg : dictGet acts sec with
  | none =>
    by_cases hk : k = sec
    · subst hk
      rw [dictGet_dictSet_self]
      simp
    · rw [dictGet_dictSet_ne _ _ _ _ hk]
      exact ha
  | some e =>
    dsimp only
    by_cases he : e ≠ "comment"
    · rw [if_pos he]
      by_cases hk : k = sec
      · subst hk
        rw [dictGet_dictSet_self]
        simp
      · rw [dictGet_dictSet_ne _ _ _ _ hk]
        exact ha
    · rw [if_neg he]
      exact ha

/-- A degenerate redline request is skipped whole by step 1. -/
theorem applyOneRedline_skip (ibs : List (String × Issue)) (st : EngineSt) (rl : Redline)
    (hdeg : pyStrip rl.find = "" ∨ pyStrip rl.replace = "" ∨
            pyStrip rl.find = pyStrip rl.replace) :
    applyOneRedline ibs st rl = st := by
  unfold applyOneRedline
  have hguard : (pyStrip rl.find = "" || pyStrip rl.replace = ""
      || pyStrip rl.find = pyStrip rl.replace) = true := by
    rcases hdeg with h | h | h <;> simp [h]
  rw [if_pos hguard]

/-- When no topic has acted as "redline", step 2 ignores the position
map except for its own position bookkeeping: changing the positions
going in only changes the positions coming out. -/
theorem step2One_positions (s : EngineSt) (ps : List (String × Nat)) (iss : Issue)
    (hinv : ∀ sec, dictGet s.actions sec ≠ some "redline") :
    (∃ ps₁, step2One { s with positions := ps } iss =
      { step2One s iss with positions := ps₁ }) ∧
    (∀ sec, dictGet (step2One s iss).actions sec ≠ some "redline") := by
  unfold step2One
  by_cases hc1 : (iss.status = "pass" ||
      (iss.priority ≠ "High" && iss.priority ≠ "Medium")) = true
  · rw [if_pos hc1, if_pos hc1]
    exact ⟨⟨ps, rfl⟩, hinv⟩
  · rw [if_neg hc1, if_neg hc1]
    by_cases hc2 : (dictGet s.actions iss.sect = some "comment" ||
        dictGet s.actions iss.sect = some "both") = true
    · have hc2' : (dictGet ({ s with positions := ps } : EngineSt).actions iss.sect
          = some "comment" ||
          dictGet ({ s with positions := ps } : EngineSt).actions iss.sect
          = some "both") = true := hc2
      rw [if_pos hc2', if_pos hc2]
      exact ⟨⟨ps, rfl⟩, hinv⟩
    · have hc2' : ¬ ((dictGet ({ s with positions := ps } : EngineSt).actions iss.sect
          = some "comment" ||
          dictGet ({ s with positions := ps } : EngineSt).actions iss.sect
          = some "both") = true) := hc2
      rw [if_neg hc2', if_neg hc2]
      have hred : decide (dictGet s.actions iss.sect = some "redline") = false := by
        simp [hinv iss.sect]
      have htgt : ∀ pos : List (String × Nat),
          (match dictGet pos iss.sect with
           | some p =>
             if p < 999990 && dictGet s.actions iss.sect = some "redline" then some p
             else none
           | none => (none : Option Nat)) = none := by
        intro pos
        cases dictGet pos iss.sect with
        | none => rfl
        | some p => simp [hred]
      dsimp only
      rw [htgt ps, htgt s.positions]
      refine ⟨⟨keepEarliest ps iss.sect
        (insertCommentAnnot ⟨s.body, s.tbl⟩ iss.sect
          (if iss.issue ≠ "" then iss.issue else "Review required per VIP standards")
          iss.vip_standard none).2, rfl⟩, ?_⟩
      intro sec
      exact recordAction_no_redline s.actions iss.sect sec (hinv sec)

/-- Folding step 2 over an issue list: the incoming position map only
influences the outgoing position map. -/
theorem step2_fold_positions (issues : List Issue) :
    ∀ (s : EngineSt) (ps : List (String × Nat)),
      (∀ sec, dictGet s.actions sec ≠ some "redline") →
      ∃ ps', issues.foldl step2One { s with positions := ps } =
        { issues.foldl step2One s with positions := ps' } := by
  induction issues with
  | nil => intro s ps hinv; exact ⟨ps, rfl⟩
  | cons iss rest ih =>
    intro s ps hinv
    obtain ⟨⟨ps₁, hstep⟩, hinv'⟩ := step2One_positions s ps iss hinv
    simp only [List.foldl_cons]
    rw [hstep]
    exact ih (step2One s iss) ps₁ hinv'

/-- Field agreement of the step-2 fold for two states that differ only
in their position maps, when no topic has acted as "redline". -/
theorem step2_fold_agree (issues : List Issue) (s t : EngineSt)
    (hb : t.body = s.body) (ht : t.tbl = s.tbl) (hc : t.changeId = s.changeId)
    (ha : t.applied = s.applied) (hm : t.comments = s.comments)
    (hac : t.actions = s.actions) (hf : t.findToSection = s.findToSection)
    (hinv : ∀ sec, dictGet s.actions sec ≠ some "redline") :
    (issues.foldl step2One t).body = (issues.foldl step2One s).body ∧
    (issues.foldl step2One t).tbl = (issues.foldl step2One s).tbl ∧
    (issues.foldl step2One t).applied = (issues.foldl step2One s).applied ∧
    (issues.foldl step2One t).comments = (issues.foldl step2One s).comments ∧
    (issues.foldl step2One t).actions = (issues.foldl step2One s).actions := by
  have heq : t = { s with positions := t.positions } := by
    cases s
    cases t
    simp_all
  obtain ⟨ps2, hfold⟩ := step2_fold_positions issues s t.positions hinv
  rw [heq, hfold]
  exact ⟨rfl, rfl, rfl, rfl, rfl⟩

/-- C10: a redline request whose stripped find text is empty, whose
stripped replace text is empty, or whose find equals its replace, has no
observable effect beyond position bookkeeping: the saved document, the
applied count, the comments count and the section actions of the
invocation equal those of the same invocation without the request. -/
theorem C10_degenerate_frame (doc : Doc) (rl : Redline) (issues : List Issue)
    (hdeg : pyStrip rl.find = "" ∨ pyStrip rl.replace = "" ∨
            pyStrip rl.find = pyStrip rl.replace) :
    (applyRedlines doc [rl] issues []).doc = (applyRedlines doc [] issues []).doc ∧
    (applyRedlines doc [rl] issues []).applied =
      (applyRedlines doc [] issues []).applied ∧
    (applyRedlines doc [rl] issues []).comments =
      (applyRedlines doc [] issues []).comments ∧
    (applyRedlines doc [rl] issues []).section_actions =
      (applyRedlines doc [] issues []).section_actions := by
  unfold applyRedlines
  simp only [List.foldl_cons, List.foldl_nil]
  rw [applyOneRedline_skip _ _ _ hdeg]
  have hagree := step2_fold_agree issues
    ⟨doc.body, doc.tableParas, 1, 0, 0, [],
      fallbackPositions doc.body [] issues (prescanPositions doc.body []), []⟩
    ⟨doc.body, doc.tableParas, 1, 0, 0, [],
      fallbackPositions doc.body [rl] issues (prescanPositions doc.body [rl]), []⟩
    rfl rfl rfl rfl rfl rfl rfl (fun sec => by simp [dictGet])
  obtain ⟨h1, h2, h3, h4, h5⟩ := hagree
  refine ⟨?_, ?_, ?_, ?_⟩
  · simp only [ne_eq, not_true_eq_false, if_false, h1, h2]
  · simp only [h3]
  · simp only [h4]
  · simp only [h5]

/-- C10 witness: a concrete degenerate request (find equals replace)
leaves document, counts and actions exactly as without it. -/
theorem C10_witness :
    (pyStrip "June 1, 2026" = "" ∨ pyStrip "June 1, 2026" = "" ∨
     pyStrip "June 1, 2026" = pyStrip "June 1, 2026") ∧
    (applyRedlines
      { body := [{ pPr := none, children := [PChild.run none "term ends June 1, 2026"] }],
        tableParas := [] }
      [{ sect := "Term", find := "June 1, 2026", replace := "June 1, 2026", reason := "" }]
      [] []).doc =
    (applyRedlines
      { body := [{ pPr := none, children := [PChild.run none "term ends June 1, 2026"] }],
        tableParas := [] }
      [] [] []).doc :=
  ⟨Or.inr (Or.inr rfl),
   (C10_degenerate_frame
     { body := [{ pPr := none, children := [PChild.run none "term ends June 1, 2026"] }],
       tableParas := [] }
     { sect := "Term", find := "June 1, 2026", replace := "June 1, 2026", reason := "" }
     [] (Or.inr (Or.inr rfl))).1⟩

/-! ## Claim C6: unmatched find text degrades to a comment annotation -/

/-- A paragraph with no tracked-change children. -/
def paraClean (p : Para) : Bool :=
  p.children.all (fun c => match c with | .run _ _ => true | _ => false)

/-- A document with no tracked-change children anywhere. -/
def docClean (d : Doc) : Bool := (d.body ++ d.tableParas).all paraClean

/-- A paragraph that matches neither exactly nor normalized is returned
untouched and consumes no change id. -/
theorem applyToPara_nomatch (p : Para) (f r : String) (cid : Nat)
    (h : paraMatches f p = false) :
    applyToPara p f r cid = (p, cid, false) := by
  unfold paraMatches at h
  rw [Bool.or_eq_false_iff] at h
  unfold applyToPara
  rw [if_neg (by simp [h.1]), if_neg (by simp [h.2])]

/-- The body loop is the identity when no paragraph matches. -/
theorem redlineParasLoop_nomatch (sect f r : String) :
    ∀ (paras : List Para) (idx cid applied : Nat) (acts : List (String × String))
      (pos : List (String × Nat)) (found : Bool),
      (∀ p ∈ paras, paraMatches f p = false) →
      redlineParasLoop sect f r paras idx cid applied acts pos found =
        (paras, cid, applied, acts, pos, found) := by
  intro paras
  induction paras with
  | nil => intro idx cid applied acts pos found _; rfl
  | cons hd tl ih =>
    intro idx cid applied acts pos found h
    have hhd := h hd (List.mem_cons_self _ _)
    unfold redlineParasLoop
    rw [applyToPara_nomatch hd f r cid hhd]
    dsimp only
    rw [ih _ _ _ _ _ _ (fun p hm => h p (List.mem_cons_of_mem _ hm))]
    simp

/-- The table loop is the identity when no cell paragraph matches. -/
theorem redlineTableLoop_nomatch (sect f r : String) :
    ∀ (paras : List Para) (cid applied : Nat) (acts : List (String × String))
      (pos : List (String × Nat)) (found : Bool),
      (∀ p ∈ paras, paraMatches f p = false) →
      redlineTableLoop sect f r paras cid applied acts pos found =
        (paras, cid, applied, acts, pos, found) := by
  intro paras
  induction paras with
  | nil => intro cid applied acts pos found _; rfl
  | cons hd tl ih =>
    intro cid applied acts pos found h
    have hhd := h hd (List.mem_cons_self _ _)
    unfold redlineTableLoop
    rw [applyToPara_nomatch hd f r cid hhd]
    dsimp only
    rw [ih _ _ _ _ _ (fun p hm => h p (List.mem_cons_of_mem _ hm))]
    simp

/-- The annotation is always placed into the body: either spliced in
front of some index or appended, leaving the table paragraphs alone. -/
theorem insertComment_body (doc : Doc) (sn it vs : String) (tgt : Option Nat) :
    (∃ k, (insertCommentAnnot doc sn it vs tgt).1.body =
      doc.body.take k ++ [commentParaOf sn it vs] ++ doc.body.drop k) ∧
    (insertCommentAnnot doc sn it vs tgt).1.tableParas = doc.tableParas := by
  unfold insertCommentAnnot
  dsimp only
  split
  · exact ⟨⟨_, rfl⟩, rfl⟩
  · refine ⟨⟨doc.body.length, ?_⟩, rfl⟩
    simp

/-- Membership and provenance of paragraphs after a comment insertion. -/
theorem insertComment_mem (doc : Doc) (sn it vs : String) (tgt : Option Nat) :
    commentParaOf sn it vs ∈ (insertCommentAnnot doc sn it vs tgt).1.body ∧
    ∀ p ∈ (insertCommentAnnot doc sn it vs tgt).1.body,
      p ∈ doc.body ∨ p = commentParaOf sn it vs := by
  obtain ⟨⟨k, hk⟩, -⟩ := insertComment_body doc sn it vs tgt
  rw [hk]
  constructor
  · simp
  · intro p hp
    rcases List.mem_append.mp hp with hp1 | hp2
    · rcases List.mem_append.mp hp1 with hp3 | hp4
      · exact Or.inl (List.take_subset k doc.body hp3)
      · simp at hp4
        exact Or.inr hp4
    · exact Or.inl (List.drop_subset k doc.body hp2)

/-- Step 1 on one redline that is nondegenerate, matches nothing, and
whose topic has no recorded action: the comment fallback fires. -/
theorem applyOneRedline_fallback (ibs : List (String × Issue)) (st : EngineSt)
    (rl : Redline)
    (hf : pyStrip rl.find ≠ "") (hr : pyStrip rl.replace ≠ "")
    (hfr : pyStrip rl.find ≠ pyStrip rl.replace)
    (hnb : ∀ p ∈ st.body, paraMatches (pyStrip rl.find) p = false)
    (hnt : ∀ p ∈ st.tbl, paraMatches (pyStrip rl.find) p = false)
    (hact : dictGet st.actions rl.sect = none) :
    applyOneRedline ibs st rl =
      (let issueObj := dictGet ibs rl.sect
       let issueText :=
        match issueObj with
        | some io =>
          if io.issue ≠ "" then io.issue
          else if rl.reason ≠ "" then rl.reason
          else "Review required per VIP standards"
        | none => if rl.reason ≠ "" then rl.reason else "Review required per VIP standards"
       let vipStd := match issueObj with | some io => io.vip_standard | none => ""
       let insertRes := insertCommentAnnot ⟨st.body, st.tbl⟩ rl.sect issueText vipStd none
       { body := insertRes.1.body, tbl := insertRes.1.tableParas, changeId := st.changeId,
         applied := st.applied, comments := st.comments + 1,
         actions := recordAction st.actions rl.sect "comment",
         positions := keepEarliest st.positions rl.sect insertRes.2,
         findToSection :=
           if rl.sect ≠ "" then
             dictSet st.findToSection (strTake (pyLower (pyStrip rl.find)) 80) rl.sect
           else st.findToSection }) := by
  unfold applyOneRedline
  rw [if_neg (by simp [hf, hr, hfr])]
  dsimp only
  rw [redlineParasLoop_nomatch rl.sect (pyStrip rl.find) (pyStrip rl.replace)
    st.body 0 st.changeId st.applied st.actions st.positions false hnb]
  dsimp only
  rw [redlineTableLoop_nomatch rl.sect (pyStrip rl.find) (pyStrip rl.replace)
    st.tbl st.changeId st.applied st.actions st.positions false hnt]
  dsimp only
  rw [if_pos (by simp [hact])]

/-- C6: a nondegenerate redline whose find text occurs nowhere in the
document creates no tracked change; with no other action recorded for
its topic, an annotation carrying the topic's issue and standard text is
inserted instead, the topic's action becomes "comment", and the request
contributes one comment — it is not silently dropped. -/
theorem C6_unmatched_becomes_comment (doc : Doc) (rl : Redline) (iss : Issue)
    (hsect : rl.sect ≠ "") (hisect : iss.sect = rl.sect) (hissue : iss.issue ≠ "")
    (hf : pyStrip rl.find ≠ "") (hr : pyStrip rl.replace ≠ "")
    (hfr : pyStrip rl.find ≠ pyStrip rl.replace)
    (hnom : ∀ p ∈ doc.body ++ doc.tableParas, paraMatches (pyStrip rl.find) p = false)
    (hclean : docClean doc = true) :
    (applyRedlines doc [rl] [iss] []).applied = 0 ∧
    (applyRedlines doc [rl] [iss] []).comments = 1 ∧
    dictGet (applyRedlines doc [rl] [iss] []).section_actions rl.sect = some "comment" ∧
    commentParaOf rl.sect iss.issue iss.vip_standard ∈
      (applyRedlines doc [rl] [iss] []).doc.body ∧
    (∀ p ∈ (applyRedlines doc [rl] [iss] []).doc.body ++
        (applyRedlines doc [rl] [iss] []).doc.tableParas, paraClean p = true) := by
  have hnb : ∀ p ∈ doc.body, paraMatches (pyStrip rl.find) p = false :=
    fun p hm => hnom p (List.mem_append_left _ hm)
  have hnt : ∀ p ∈ doc.tableParas, paraMatches (pyStrip rl.find) p = false :=
    fun p hm => hnom p (List.mem_append_right _ hm)
  have hibs : ([iss].foldl (fun acc it =>
      if it.sect ≠ "" then dictSet acc it.sect it else acc) []) = [(iss.sect, iss)] := by
    simp only [List.foldl_cons, List.foldl_nil]
    rw [if_pos (hisect ▸ hsect)]
    rfl
  have hlook : dictGet [(iss.sect, iss)] rl.sect = some iss := by
    rw [hisect]
    simp [dictGet]
  have hitext : (match some iss with
      | some io =>
        if io.issue ≠ "" then io.issue
        else if rl.reason ≠ "" then rl.reason
        else "Review required per VIP standards"
      | none => if rl.reason ≠ "" then rl.reason
                else "Review required per VIP standards") = iss.issue := by
    dsimp only
    rw [if_pos hissue]
  unfold applyRedlines
  simp only [List.foldl_cons, List.foldl_nil, hibs]
  rw [applyOneRedline_fallback [(iss.sect, iss)]
    { body := doc.body, tbl := doc.tableParas, changeId := 1, applied := 0,
      comments := 0, actions := [],
      positions := fallbackPositions doc.body [rl] [iss] (prescanPositions doc.body [rl]),
      findToSection := [] } rl hf hr hfr hnb hnt (by simp [dictGet])]
  dsimp only
  rw [hlook]
  rw [hitext]
  set insertRes := insertCommentAnnot ⟨doc.body, doc.tableParas⟩ rl.sect iss.issue
    iss.vip_standard none with hins
  have hacts : recordAction ([] : List (String × String)) rl.sect "comment" =
      [(rl.sect, "comment")] := by
    simp [recordAction, dictGet, dictSet]
  rw [hacts]
  set st1 : EngineSt :=
    { body := insertRes.1.body, tbl := insertRes.1.tableParas, changeId := 1,
      applied := 0, comments := 0 + 1, actions := [(rl.sect, "comment")],
      positions := keepEarliest
        (fallbackPositions doc.body [rl] [iss] (prescanPositions doc.body [rl]))
        rl.sect insertRes.2,
      findToSection :=
        if rl.sect ≠ "" then dictSet [] (strTake (pyLower (pyStrip rl.find)) 80) rl.sect
        else [] } with hst1
  have hstep2 : step2One st1 iss = st1 := by
    unfold step2One
    by_cases hc1 : (iss.status = "pass" ||
        (iss.priority ≠ "High" && iss.priority ≠ "Medium")) = true
    · rw [if_pos hc1]
    · rw [if_neg hc1]
      rw [if_pos]
      have : dictGet st1.actions iss.sect = some "comment" := by
        rw [hisect, hst1]
        simp [dictGet]
      simp [this]
  rw [hstep2]
  have hbodyfacts := insertComment_mem ⟨doc.body, doc.tableParas⟩ rl.sect iss.issue
    iss.vip_standard none
  have hcleanl : ∀ p ∈ doc.body ++ doc.tableParas, paraClean p = true := by
    intro p hm
    exact List.all_eq_true.mp hclean p hm
  refine ⟨rfl, rfl, by simp [dictGet], ?_, ?_⟩
  · exact hbodyfacts.1
  · intro p hm
    rcases List.mem_append.mp hm with hmb | hmt
    · rcases hbodyfacts.2 p hmb with hin | hcp
      · exact hcleanl p (List.mem_append_left _ hin)
      · subst hcp
        rfl
    · have htbl : insertRes.1.tableParas = doc.tableParas :=
        (insertComment_body ⟨doc.body, doc.tableParas⟩ rl.sect iss.issue
          iss.vip_standard none).2
      rw [hst1] at hmt
      dsimp only at hmt
      rw [htbl] at hmt
      exact hcleanl p (List.mem_append_right _ hmt)

/-- The C6 witness document, request and issue. -/
def w6doc : Doc :=
  { body := [{ pPr := none, children := [PChild.run none "rent is due monthly"] }],
    tableParas := [] }

def w6rl : Redline :=
  { sect := "Insurance", find := "casualty insurance", replace := "full coverage",
    reason := "" }

def w6iss : Issue :=
  { sect := "Insurance", priority := "High", status := "fail",
    issue := "No insurance clause", vip_standard := "VIP requires coverage",
    lease_says := "" }

/-- C6 witness: the guarantees at a concrete document in which the find
text occurs nowhere. -/
theorem C6_witness :
    (∀ p ∈ w6doc.body ++ w6doc.tableParas,
      paraMatches (pyStrip w6rl.find) p = false) ∧
    (applyRedlines w6doc [w6rl] [w6iss] []).applied = 0 ∧
    (applyRedlines w6doc [w6rl] [w6iss] []).comments = 1 ∧
    dictGet (applyRedlines w6doc [w6rl] [w6iss] []).section_actions w6rl.sect =
      some "comment" ∧
    commentParaOf w6rl.sect w6iss.issue w6iss.vip_standard ∈
      (applyRedlines w6doc [w6rl] [w6iss] []).doc.body := by
  have h := C6_unmatched_becomes_comment w6doc w6rl w6iss
    (by decide) (by decide) (by decide) (by decide) (by decide) (by decide)
    (by decide) (by decide)
  exact ⟨by decide, h.1, h.2.1, h.2.2.1, h.2.2.2.1⟩

/-! ## Claim C7: change-id allocation -/

/-- The change id carried by a tracked-change child. -/
def childId : PChild → Option Nat
  | .del n _ _ => some n
  | .ins n _ _ => some n
  | _ => none

/-- All change ids inside one paragraph, in order. -/
def paraIds (p : Para) : List Nat := p.children.filterMap childId

/-- All change ids of a paragraph list, in scan order. -/
def idsOfParas : List Para → List Nat
  | [] => []
  | p :: rest => paraIds p ++ idsOfParas rest

/-- Well-paired children: every tracked deletion is immediately followed
by a tracked insertion whose id is the deletion's id plus one, and no
insertion appears unpaired. -/
def pairedOk : List PChild → Bool
  | [] => true
  | .run _ _ :: rest => pairedOk rest
  | .del n _ _ :: .ins m _ _ :: rest => (m = n + 1) && pairedOk rest
  | _ => false

theorem idsOfParas_append (l1 l2 : List Para) :
    idsOfParas (l1 ++ l2) = idsOfParas l1 ++ idsOfParas l2 := by
  induction l1 with
  | nil => rfl
  | cons hd tl ih => simp [idsOfParas, ih]

theorem clean_filterMap_childId : ∀ (cs : List PChild),
    (cs.all (fun c => match c with | .run _ _ => true | _ => false)) = true →
    cs.filterMap childId = [] := by
  intro cs
  induction cs with
  | nil => intro _; rfl
  | cons c rest ih =>
    intro h
    rw [List.all_cons, Bool.and_eq_true] at h
    cases c with
    | run rpr t => simpa [childId] using ih h.2
    | del n rpr t => simp at h
    | ins n rpr t => simp at h

theorem clean_paraIds (p : Para) (h : paraClean p = true) : paraIds p = [] :=
  clean_filterMap_childId p.children h

theorem clean_pairedOk_children : ∀ (cs : List PChild),
    (cs.all (fun c => match c with | .run _ _ => true | _ => false)) = true →
    pairedOk cs = true := by
  intro cs
  induction cs with
  | nil => intro _; rfl
  | cons c rest ih =>
    intro h
    rw [List.all_cons, Bool.and_eq_true] at h
    cases c with
    | run rpr t => simpa [pairedOk] using ih h.2
    | del n rpr t => simp at h
    | ins n rpr t => simp at h

theorem clean_pairedOk (p : Para) (h : paraClean p = true) :
    pairedOk p.children = true :=
  clean_pairedOk_children p.children h

theorem commentParaOf_clean (sn it vs : String) :
    paraClean (commentParaOf sn it vs) = true := rfl

theorem addIssuePara_clean (ai : AddIssue) : paraClean (addIssuePara ai) = true := rfl

/-- Core case analysis of applyToPara: either it returns the paragraph
and counter untouched, or it consumes exactly the two ids cid, cid+1 and
produces a well-paired paragraph holding exactly those ids. -/
theorem applyToPara_spec (p : Para) (f r : String) (cid : Nat) :
    ((applyToPara p f r cid).2.2 = false ∧ (applyToPara p f r cid).1 = p ∧
     (applyToPara p f r cid).2.1 = cid) ∨
    ((applyToPara p f r cid).2.2 = true ∧ (applyToPara p f r cid).2.1 = cid + 2 ∧
     paraIds (applyToPara p f r cid).1 = [cid, cid + 1] ∧
     pairedOk (applyToPara p f r cid).1.children = true) := by
  have hcore : ∀ (af full : String),
      paraIds (applyToParaCore p af full r cid) = [cid, cid + 1] ∧
      pairedOk (applyToParaCore p af full r cid).children = true := by
    intro af full
    unfold applyToParaCore paraIds
    dsimp only
    by_cases hb : strTake full (firstIdxOfSub af full) ≠ ""
    · by_cases ha : strDrop full (firstIdxOfSub af full + af.length) ≠ ""
      · rw [if_pos hb, if_pos ha]; simp [childId, pairedOk]
      · rw [if_pos hb, if_neg ha]; simp [childId, pairedOk]
    · by_cases ha : strDrop full (firstIdxOfSub af full + af.length) ≠ ""
      · rw [if_neg hb, if_pos ha]; simp [childId, pairedOk]
      · rw [if_neg hb, if_neg ha]; simp [childId, pairedOk]
  unfold applyToPara
  by_cases h1 : substr f (paraText p) = true
  · rw [if_pos h1]
    exact Or.inr ⟨rfl, rfl, (hcore f (paraText p)).1, (hcore f (paraText p)).2⟩
  · rw [if_neg h1]
    dsimp only
    by_cases h2 : substr (normalize f) (normalize (paraText p)) = true
    · rw [if_pos h2]
      exact Or.inr ⟨rfl, rfl, (hcore _ _).1, (hcore _ _).2⟩
    · rw [if_neg h2]
      exact Or.inl ⟨rfl, rfl, rfl⟩

/-- Postcondition of one step-1 scan: output paragraphs well paired,
output ids distinct, bounded by the outgoing counter, counter advanced
two per success, and every output id either pre-existing or freshly
allocated at or above the incoming counter. -/
def LoopPost (paras : List Para) (cid applied : Nat)
    (out : List Para × Nat × Nat × List (String × String) × List (String × Nat) × Bool) :
    Prop :=
  (∀ p ∈ out.1, pairedOk p.children = true) ∧
  (idsOfParas out.1).Nodup ∧
  (∀ i ∈ idsOfParas out.1, 1 ≤ i ∧ i < out.2.1) ∧
  cid ≤ out.2.1 ∧
  out.2.1 + 2 * applied = cid + 2 * out.2.2.1 ∧
  (∀ i ∈ idsOfParas out.1, i ∈ idsOfParas paras ∨ cid ≤ i)

theorem redlineParasLoop_invariant (sect f r : String) :
    ∀ (paras : List Para) (idx cid applied : Nat) (acts : List (String × String))
      (pos : List (String × Nat)) (found : Bool),
      (∀ p ∈ paras, pairedOk p.children = true) →
      (idsOfParas paras).Nodup →
      (∀ i ∈ idsOfParas paras, 1 ≤ i ∧ i < cid) →
      1 ≤ cid →
      LoopPost paras cid applied
        (redlineParasLoop sect f r paras idx cid applied acts pos found) := by
  intro paras
  induction paras with
  | nil =>
    intro idx cid applied acts pos found hpaired hnodup hbound hcid
    exact ⟨by simp [redlineParasLoop], by simp [redlineParasLoop, idsOfParas],
      by simp [redlineParasLoop, idsOfParas], by simp [redlineParasLoop],
      by simp [redlineParasLoop], by simp [redlineParasLoop, idsOfParas]⟩
  | cons hd tl ih =>
    intro idx cid applied acts pos found hpaired hnodup hbound hcid
    have hids : idsOfParas (hd :: tl) = paraIds hd ++ idsOfParas tl := rfl
    rw [hids] at hnodup hbound
    obtain ⟨hnd1, hnd2, hdisj⟩ := List.nodup_append.mp hnodup
    have hphd := hpaired hd (List.mem_cons_self _ _)
    have hptl : ∀ p ∈ tl, pairedOk p.children = true :=
      fun p hm => hpaired p (List.mem_cons_of_mem _ hm)
    have hbhd : ∀ i ∈ paraIds hd, 1 ≤ i ∧ i < cid :=
      fun i hm => hbound i (List.mem_append_left _ hm)
    have hbtl : ∀ i ∈ idsOfParas tl, 1 ≤ i ∧ i < cid :=
      fun i hm => hbound i (List.mem_append_right _ hm)
    rcases applyToPara_spec hd f r cid with ⟨hok, hp, hc⟩ | ⟨hok, hc, hidsp, hpair⟩
    · -- no match: paragraph and counter untouched
      have ihtl := ih (idx + 1) cid applied acts pos found hptl hnd2 hbtl hcid
      unfold redlineParasLoop
      simp only [hok, hc, hp, Bool.false_eq_true, if_false, Bool.false_and,
        Bool.and_false, Bool.or_false]
      unfold LoopPost
      dsimp only
      obtain ⟨q1, q2, q3, q4, q5, q6⟩ := ihtl
      refine ⟨?_, ?_, ?_, ?_, ?_, ?_⟩
      · intro p hm
        rcases List.mem_cons.mp hm with hph | hpt
        · exact hph ▸ hphd
        · exact q1 p hpt
      · show (paraIds hd ++ idsOfParas _).Nodup
        rw [List.nodup_append]
        refine ⟨hnd1, q2, ?_⟩
        intro x hx hx2
        rcases q6 x hx2 with hyin | hyge
        · exact hdisj hx hyin
        · have := (hbhd x hx).2
          omega
      · intro i hm
        rcases List.mem_append.mp hm with hmh | hmt
        · have := hbhd i hmh
          have := q4
          omega
        · exact q3 i hmt
      · exact q4
      · exact q5
      · intro i hm
        rcases List.mem_append.mp hm with hmh | hmt
        · exact Or.inl (List.mem_append_left _ hmh)
        · rcases q6 i hmt with hin | hge
          · exact Or.inl (List.mem_append_right _ hin)
          · exact Or.inr hge
    · -- match: two fresh ids consumed
      have ihtl := ih (idx + 1) (cid + 2) (applied + 1)
        (recordAction acts sect "redline")
        (if (true && !found) = true then dictSet pos sect idx else pos)
        (found || true) hptl hnd2 (fun i hm => by have := hbtl i hm; omega) (by omega)
      unfold redlineParasLoop
      simp only [hok, hc, if_true]
      unfold LoopPost
      dsimp only
      obtain ⟨q1, q2, q3, q4, q5, q6⟩ := ihtl
      refine ⟨?_, ?_, ?_, ?_, ?_, ?_⟩
      · intro p hm
        rcases List.mem_cons.mp hm with hph | hpt
        · exact hph ▸ hpair
        · exact q1 p hpt
      · show (paraIds _ ++ idsOfParas _).Nodup
        rw [hidsp, List.nodup_append]
        refine ⟨by simp, q2, ?_⟩
        intro x hx hx2
        rcases q6 x hx2 with hyin | hyge
        · have := (hbtl x hyin).2
          simp at hx
          omega
        · simp at hx
          omega
      · intro i hm
        rcases List.mem_append.mp hm with hmh | hmt
        · rw [hidsp] at hmh
          simp at hmh
          have := q4
          rcases hmh with h | h <;> omega
        · exact q3 i hmt
      · omega
      · omega
      · intro i hm
        rcases List.mem_append.mp hm with hmh | hmt
        · rw [hidsp] at hmh
          simp at hmh
          rcases hmh with h | h <;> omega
        · rcases q6 i hmt with hin | hge
          · exact Or.inl (List.mem_append_right _ hin)
          · right
            omega

theorem redlineTableLoop_invariant (sect f r : String) :
    ∀ (paras : List Para) (cid applied : Nat) (acts : List (String × String))
      (pos : List (String × Nat)) (found : Bool),
      (∀ p ∈ paras, pairedOk p.children = true) →
      (idsOfParas paras).Nodup →
      (∀ i ∈ idsOfParas paras, 1 ≤ i ∧ i < cid) →
      1 ≤ cid →
      LoopPost paras cid applied
        (redlineTableLoop sect f r paras cid applied acts pos found) := by
  intro paras
  induction paras with
  | nil =>
    intro cid applied acts pos found hpaired hnodup hbound hcid
    exact ⟨by simp [redlineTableLoop], by simp [redlineTableLoop, idsOfParas],
      by simp [redlineTableLoop, idsOfParas], by simp [redlineTableLoop],
      by simp [redlineTableLoop], by simp [redlineTableLoop, idsOfParas]⟩
  | cons hd tl ih =>
    intro cid applied acts pos found hpaired hnodup hbound hcid
    have hids : idsOfParas (hd :: tl) = paraIds hd ++ idsOfParas tl := rfl
    rw [hids] at hnodup hbound
    obtain ⟨hnd1, hnd2, hdisj⟩ := List.nodup_append.mp hnodup
    have hphd := hpaired hd (List.mem_cons_self _ _)
    have hptl : ∀ p ∈ tl, pairedOk p.children = true :=
      fun p hm => hpaired p (List.mem_cons_of_mem _ hm)
    have hbhd : ∀ i ∈ paraIds hd, 1 ≤ i ∧ i < cid :=
      fun i hm => hbound i (List.mem_append_left _ hm)
    have hbtl : ∀ i ∈ idsOfParas tl, 1 ≤ i ∧ i < cid :=
      fun i hm => hbound i (List.mem_append_right _ hm)
    rcases applyToPara_spec hd f r cid with ⟨hok, hp, hc⟩ | ⟨hok, hc, hidsp, hpair⟩
    · have ihtl := ih cid applied acts pos found hptl hnd2 hbtl hcid
      unfold redlineTableLoop
      simp only [hok, hc, hp, Bool.false_eq_true, if_false, Bool.false_and,
        Bool.and_false, Bool.or_false]
      unfold LoopPost
      dsimp only
      obtain ⟨q1, q2, q3, q4, q5, q6⟩ := ihtl
      refine ⟨?_, ?_, ?_, ?_, ?_, ?_⟩
      · intro p hm
        rcases List.mem_cons.mp hm with hph | hpt
        · exact hph ▸ hphd
        · exact q1 p hpt
      · show (paraIds hd ++ idsOfParas _).Nodup
        rw [List.nodup_append]
        refine ⟨hnd1, q2, ?_⟩
        intro x hx hx2
        rcases q6 x hx2 with hyin | hyge
        · exact hdisj hx hyin
        · have := (hbhd x hx).2
          omega
      · intro i hm
        rcases List.mem_append.mp hm with hmh | hmt
        · have := hbhd i hmh
          have := q4
          omega
        · exact q3 i hmt
      · exact q4
      · exact q5
      · intro i hm
        rcases List.mem_append.mp hm with hmh | hmt
        · exact Or.inl (List.mem_append_left _ hmh)
        · rcases q6 i hmt with hin | hge
          · exact Or.inl (List.mem_append_right _ hin)
          · exact Or.inr hge
    · have ihtl := ih (cid + 2) (applied + 1)
        (recordAction acts sect "redline")
        (if (true && decide (999998 ≤ posGetD pos sect)) = true then
          dictSet pos sect 999998 else pos)
        (found || true) hptl hnd2 (fun i hm => by have := hbtl i hm; omega) (by omega)
      unfold redlineTableLoop
      simp only [hok, hc, if_true]
      unfold LoopPost
      dsimp only
      obtain ⟨q1, q2, q3, q4, q5, q6⟩ := ihtl
      refine ⟨?_, ?_, ?_, ?_, ?_, ?_⟩
      · intro p hm
        rcases List.mem_cons.mp hm with hph | hpt
        · exact hph ▸ hpair
        · exact q1 p hpt
      · show (paraIds _ ++ idsOfParas _).Nodup
        rw [hidsp, List.nodup_append]
        refine ⟨by simp, q2, ?_⟩
        intro x hx hx2
        rcases q6 x hx2 with hyin | hyge
        · have := (hbtl x hyin).2
          simp at hx
          omega
        · simp at hx
          omega
      · intro i hm
        rcases List.mem_append.mp hm with hmh | hmt
        · rw [hidsp] at hmh
          simp at hmh
          have := q4
          rcases hmh with h | h <;> omega
        · exact q3 i hmt
      · omega
      · omega
      · intro i hm
        rcases List.mem_append.mp hm with hmh | hmt
        · rw [hidsp] at hmh
          simp at hmh
          rcases hmh with h | h <;> omega
        · rcases q6 i hmt with hin | hge
          · exact Or.inl (List.mem_append_right _ hin)
          · right
            omega

/-- Ids of a list of clean paragraphs. -/
theorem clean_idsOf : ∀ (l : List Para), (∀ p ∈ l, paraClean p = true) →
    idsOfParas l = [] := by
  intro l
  induction l with
  | nil => intro _; rfl
  | cons hd tl ih =>
    intro h
    show paraIds hd ++ idsOfParas tl = []
    rw [clean_paraIds hd (h hd (List.mem_cons_self _ _)),
      ih (fun p hm => h p (List.mem_cons_of_mem _ hm))]
    rfl

/-- Inserting the annotation paragraph changes no change ids. -/
theorem insertComment_ids (doc : Doc) (sn it vs : String) (tgt : Option Nat) :
    idsOfParas (insertCommentAnnot doc sn it vs tgt).1.body =
      idsOfParas doc.body := by
  obtain ⟨⟨k, hk⟩, -⟩ := insertComment_body doc sn it vs tgt
  rw [hk]
  rw [idsOfParas_append, idsOfParas_append]
  have hcp : idsOfParas [commentParaOf sn it vs] = [] := by
    show paraIds (commentParaOf sn it vs) ++ idsOfParas [] = []
    rw [clean_paraIds _ (commentParaOf_clean sn it vs)]
    rfl
  rw [hcp, List.append_nil, ← idsOfParas_append, List.take_append_drop]

/-- Pairedness survives a comment insertion. -/
theorem insertComment_paired (doc : Doc) (sn it vs : String) (tgt : Option Nat)
    (h : ∀ p ∈ doc.body, pairedOk p.children = true) :
    ∀ p ∈ (insertCommentAnnot doc sn it vs tgt).1.body,
      pairedOk p.children = true := by
  intro p hm
  rcases (insertComment_mem doc sn it vs tgt).2 p hm with hin | hcp
  · exact h p hin
  · subst hcp
    exact clean_pairedOk _ (commentParaOf_clean sn it vs)

/-- Inserting an annotation preserves pairedness, id distinctness and id
bounds of the whole document. -/
theorem insertComment_inv_all (d : Doc) (sn itext vs : String) (tgt : Option Nat)
    (c : Nat)
    (hp : ∀ p ∈ d.body ++ d.tableParas, pairedOk p.children = true)
    (hn : (idsOfParas (d.body ++ d.tableParas)).Nodup)
    (hb : ∀ i ∈ idsOfParas (d.body ++ d.tableParas), 1 ≤ i ∧ i < c) :
    (∀ p ∈ (insertCommentAnnot d sn itext vs tgt).1.body ++
        (insertCommentAnnot d sn itext vs tgt).1.tableParas,
      pairedOk p.children = true) ∧
    (idsOfParas ((insertCommentAnnot d sn itext vs tgt).1.body ++
        (insertCommentAnnot d sn itext vs tgt).1.tableParas)).Nodup ∧
    (∀ i ∈ idsOfParas ((insertCommentAnnot d sn itext vs tgt).1.body ++
        (insertCommentAnnot d sn itext vs tgt).1.tableParas), 1 ≤ i ∧ i < c) := by
  have htbl : (insertCommentAnnot d sn itext vs tgt).1.tableParas = d.tableParas :=
    (insertComment_body d sn itext vs tgt).2
  have hids : idsOfParas ((insertCommentAnnot d sn itext vs tgt).1.body ++
      (insertCommentAnnot d sn itext vs tgt).1.tableParas) =
      idsOfParas (d.body ++ d.tableParas) := by
    rw [htbl, idsOfParas_append, insertComment_ids, ← idsOfParas_append]
  refine ⟨?_, by rw [hids]; exact hn, by rw [hids]; exact hb⟩
  intro p hm
  rcases List.mem_append.mp hm with hm1 | hm2
  · exact insertComment_paired d sn itext vs tgt
      (fun q hq => hp q (List.mem_append_left _ hq)) p hm1
  · rw [htbl] at hm2
    exact hp p (List.mem_append_right _ hm2)

/-- The global engine invariant across step 1 and step 2: well-paired
paragraphs, pairwise-distinct ids all below the counter, and the counter
exactly one plus twice the applied count (it starts at one and advances
two per applied substitution). -/
def EngineInv (st : EngineSt) : Prop :=
  (∀ p ∈ st.body ++ st.tbl, pairedOk p.children = true) ∧
  (idsOfParas (st.body ++ st.tbl)).Nodup ∧
  (∀ i ∈ idsOfParas (st.body ++ st.tbl), 1 ≤ i ∧ i < st.changeId) ∧
  st.changeId = 1 + 2 * st.applied

theorem applyOneRedline_inv (ibs : List (String × Issue)) (st : EngineSt)
    (rl : Redline) (h : EngineInv st) : EngineInv (applyOneRedline ibs st rl) := by
  obtain ⟨hpair, hnodup, hbound, hlink⟩ := h
  rw [idsOfParas_append] at hnodup hbound
  obtain ⟨hndB, hndT, hdisj⟩ := List.nodup_append.mp hnodup
  have hpB : ∀ p ∈ st.body, pairedOk p.children = true :=
    fun p hm => hpair p (List.mem_append_left _ hm)
  have hpT : ∀ p ∈ st.tbl, pairedOk p.children = true :=
    fun p hm => hpair p (List.mem_append_right _ hm)
  have hbB : ∀ i ∈ idsOfParas st.body, 1 ≤ i ∧ i < st.changeId :=
    fun i hm => hbound i (List.mem_append_left _ hm)
  have hbT : ∀ i ∈ idsOfParas st.tbl, 1 ≤ i ∧ i < st.changeId :=
    fun i hm => hbound i (List.mem_append_right _ hm)
  unfold applyOneRedline
  by_cases hg : (pyStrip rl.find = "" || pyStrip rl.replace = ""
      || pyStrip rl.find = pyStrip rl.replace) = true
  · rw [if_pos hg]
    refine ⟨hpair, ?_, ?_, hlink⟩
    · rw [idsOfParas_append]
      exact hnodup
    · rw [idsOfParas_append]
      exact hbound
  · rw [if_neg hg]
    dsimp only
    obtain ⟨b1, b2, b3, b4, b5, b6⟩ := redlineParasLoop_invariant rl.sect
      (pyStrip rl.find) (pyStrip rl.replace) st.body 0 st.changeId st.applied
      st.actions st.positions false hpB hndB hbB (by omega)
    obtain ⟨t1, t2, t3, t4, t5, t6⟩ := redlineTableLoop_invariant rl.sect
      (pyStrip rl.find) (pyStrip rl.replace) st.tbl
      (redlineParasLoop rl.sect (pyStrip rl.find) (pyStrip rl.replace) st.body 0
        st.changeId st.applied st.actions st.positions false).2.1
      (redlineParasLoop rl.sect (pyStrip rl.find) (pyStrip rl.replace) st.body 0
        st.changeId st.applied st.actions st.positions false).2.2.1
      (redlineParasLoop rl.sect (pyStrip rl.find) (pyStrip rl.replace) st.body 0
        st.changeId st.applied st.actions st.positions false).2.2.2.1
      (redlineParasLoop rl.sect (pyStrip rl.find) (pyStrip rl.replace) st.body 0
        st.changeId st.applied st.actions st.positions false).2.2.2.2.1
      (redlineParasLoop rl.sect (pyStrip rl.find) (pyStrip rl.replace) st.body 0
        st.changeId st.applied st.actions st.positions false).2.2.2.2.2
      hpT hndT (fun i hm => by have := hbT i hm; omega) (by omega)
    set b := redlineParasLoop rl.sect (pyStrip rl.find) (pyStrip rl.replace) st.body 0
      st.changeId st.applied st.actions st.positions false with hb
    set t := redlineTableLoop rl.sect (pyStrip rl.find) (pyStrip rl.replace) st.tbl
      b.2.1 b.2.2.1 b.2.2.2.1 b.2.2.2.2.1 b.2.2.2.2.2 with ht
    have hdisj' : ∀ x, x ∈ idsOfParas b.1 → x ∈ idsOfParas t.1 → False := by
      intro x hxb hxt
      rcases b6 x hxb with hinB | hgeB
      · rcases t6 x hxt with hinT | hgeT
        · exact hdisj hinB hinT
        · have := (hbB x hinB).2
          have := b4
          omega
      · rcases t6 x hxt with hinT | hgeT
        · have := (hbT x hinT).2
          have := (b3 x hxb).2
          omega
        · have := (b3 x hxb).2
          omega
    have hcomb_pair : ∀ p ∈ b.1 ++ t.1, pairedOk p.children = true := by
      intro p hm
      rcases List.mem_append.mp hm with hm1 | hm2
      · exact b1 p hm1
      · exact t1 p hm2
    have hcomb_nodup : (idsOfParas (b.1 ++ t.1)).Nodup := by
      rw [idsOfParas_append, List.nodup_append]
      exact ⟨b2, t2, fun x hx hx2 => hdisj' x hx hx2⟩
    have hcomb_bound : ∀ i ∈ idsOfParas (b.1 ++ t.1), 1 ≤ i ∧ i < t.2.1 := by
      intro i hm
      rw [idsOfParas_append] at hm
      rcases List.mem_append.mp hm with hm1 | hm2
      · have := b3 i hm1
        have := t4
        omega
      · exact t3 i hm2
    have hcomb_link : t.2.1 = 1 + 2 * t.2.2.1 := by omega
    split
    · -- comment fallback fires
      rw [EngineInv]
      dsimp only
      refine ⟨(insertComment_inv_all _ _ _ _ _ _ hcomb_pair hcomb_nodup hcomb_bound).1,
        (insertComment_inv_all _ _ _ _ _ _ hcomb_pair hcomb_nodup hcomb_bound).2.1,
        (insertComment_inv_all _ _ _ _ _ _ hcomb_pair hcomb_nodup hcomb_bound).2.2,
        hcomb_link⟩
    · rw [EngineInv]
      dsimp only
      exact ⟨hcomb_pair, hcomb_nodup, hcomb_bound, hcomb_link⟩

theorem step2One_inv (st : EngineSt) (iss : Issue) (h : EngineInv st) :
    EngineInv (step2One st iss) := by
  obtain ⟨hpair, hnodup, hbound, hlink⟩ := h
  unfold step2One
  by_cases hc1 : (iss.status = "pass" ||
      (iss.priority ≠ "High" && iss.priority ≠ "Medium")) = true
  · rw [if_pos hc1]
    exact ⟨hpair, hnodup, hbound, hlink⟩
  · rw [if_neg hc1]
    by_cases hc2 : (dictGet st.actions iss.sect = some "comment" ||
        dictGet st.actions iss.sect = some "both") = true
    · rw [if_pos hc2]
      exact ⟨hpair, hnodup, hbound, hlink⟩
    · rw [if_neg hc2]
      rw [EngineInv]
      dsimp only
      refine ⟨(insertComment_inv_all _ _ _ _ _ _ hpair hnodup hbound).1,
        (insertComment_inv_all _ _ _ _ _ _ hpair hnodup hbound).2.1,
        (insertComment_inv_all _ _ _ _ _ _ hpair hnodup hbound).2.2,
        hlink⟩

theorem foldl_applyOneRedline_inv (ibs : List (String × Issue))
    (redlines : List Redline) :
    ∀ st, EngineInv st → EngineInv (redlines.foldl (applyOneRedline ibs) st) := by
  induction redlines with
  | nil => intro st h; exact h
  | cons rl rest ih =>
    intro st h
    exact ih _ (applyOneRedline_inv ibs st rl h)

theorem foldl_step2One_inv (issues : List Issue) :
    ∀ st, EngineInv st → EngineInv (issues.foldl step2One st) := by
  induction issues with
  | nil => intro st h; exact h
  | cons iss rest ih =>
    intro st h
    exact ih _ (step2One_inv st iss h)

theorem addIssuesParas_clean (ais : List AddIssue) :
    ∀ p ∈ addIssuesParas ais, paraClean p = true := by
  intro p hm
  unfold addIssuesParas at hm
  rcases List.mem_cons.mp hm with h | h
  · subst h
    rfl
  · obtain ⟨a, -, rfl⟩ := List.mem_map.mp h
    rfl

/-- C7: for a clean input document, every invocation yields a saved
document in which all change ids are pairwise distinct, every tracked
deletion is immediately followed by its tracked insertion carrying the
next id, and every id lies in the block 1 .. 2*applied allocated by the
single counter that starts at 1 and advances by two per applied
substitution without ever being reset. -/
theorem C7_change_ids (doc : Doc) (redlines : List Redline) (issues : List Issue)
    (ais : List AddIssue) (hclean : docClean doc = true) :
    (∀ p ∈ (applyRedlines doc redlines issues ais).doc.body ++
        (applyRedlines doc redlines issues ais).doc.tableParas,
      pairedOk p.children = true) ∧
    (idsOfParas ((applyRedlines doc redlines issues ais).doc.body ++
        (applyRedlines doc redlines issues ais).doc.tableParas)).Nodup ∧
    (∀ i ∈ idsOfParas ((applyRedlines doc redlines issues ais).doc.body ++
        (applyRedlines doc redlines issues ais).doc.tableParas),
      1 ≤ i ∧ i ≤ 2 * (applyRedlines doc redlines issues ais).applied) := by
  have hcl : ∀ p ∈ doc.body ++ doc.tableParas, paraClean p = true :=
    fun p hm => List.all_eq_true.mp hclean p hm
  have h0 : EngineInv
      { body := doc.body, tbl := doc.tableParas, changeId := 1, applied := 0,
        comments := 0, actions := [],
        positions := fallbackPositions doc.body redlines issues
          (prescanPositions doc.body redlines),
        findToSection := [] } := by
    refine ⟨?_, ?_, ?_, rfl⟩
    · intro p hm
      exact clean_pairedOk p (hcl p hm)
    · rw [clean_idsOf _ hcl]
      exact List.nodup_nil
    · rw [clean_idsOf _ hcl]
      intro i hm
      simp at hm
  have h1 := foldl_applyOneRedline_inv
    (issues.foldl (fun acc it => if it.sect ≠ "" then dictSet acc it.sect it else acc) [])
    redlines _ h0
  have h2 := foldl_step2One_inv issues _ h1
  obtain ⟨p2, n2, b2, l2⟩ := h2
  unfold applyRedlines
  dsimp only
  by_cases hais : ais = []
  · subst hais
    rw [if_neg (by simp)]
    refine ⟨p2, n2, ?_⟩
    intro i hm
    have := b2 i hm
    omega
  · rw [if_pos hais]
    have haddids : idsOfParas (addIssuesParas ais) = [] :=
      clean_idsOf _ (addIssuesParas_clean ais)
    have hidseq : ∀ (stb stt : List Para),
        idsOfParas ((stb ++ addIssuesParas ais) ++ stt) = idsOfParas (stb ++ stt) := by
      intro stb stt
      rw [idsOfParas_append, idsOfParas_append, haddids, List.append_nil,
        ← idsOfParas_append]
    refine ⟨?_, ?_, ?_⟩
    · intro p hm
      rcases List.mem_append.mp hm with hm1 | hm2
      · rcases List.mem_append.mp hm1 with hm3 | hm4
        · exact p2 p (List.mem_append_left _ hm3)
        · exact clean_pairedOk p (addIssuesParas_clean ais p hm4)
      · exact p2 p (List.mem_append_right _ hm2)
    · rw [hidseq]
      exact n2
    · rw [hidseq]
      intro i hm
      have := b2 i hm
      omega

/-- The C7 witness document and redline: the find text occurs in two
paragraphs, consuming ids 1, 2 and 3, 4. -/
def w7doc : Doc :=
  { body := [{ pPr := none, children := [PChild.run none "alpha beta"] },
             { pPr := none, children := [PChild.run none "beta gamma"] }],
    tableParas := [] }

def w7redlines : List Redline :=
  [{ sect := "S", find := "beta", replace := "delta", reason := "" }]

/-- C7 witness: the id guarantees at a concrete two-match invocation. -/
theorem C7_witness :
    docClean w7doc = true ∧
    (idsOfParas ((applyRedlines w7doc w7redlines [] []).doc.body ++
        (applyRedlines w7doc w7redlines [] []).doc.tableParas)).Nodup ∧
    (∀ i ∈ idsOfParas ((applyRedlines w7doc w7redlines [] []).doc.body ++
        (applyRedlines w7doc w7redlines [] []).doc.tableParas),
      1 ≤ i ∧ i ≤ 2 * (applyRedlines w7doc w7redlines [] []).applied) := by
  have h := C7_change_ids w7doc w7redlines [] [] (by decide)
  exact ⟨by decide, h.2.1, h.2.2⟩

end LeaseReview
